import Mathlib

/-!
Verification of the completion pipeline engine (rigging/completion.py): a
shallow embedding of the per-request retry state machine (_process), the
batch executor loop (run_many / run_batch), the post-processing stage
(_post_run), the parameter fitting (_fit_params), the builder operations
(until, until_parsed_as, watch, then, map, clone), together with theorems
settling the specification claims against the embedded code.
-/

namespace Rigging

/-! ## Retry state machine (CompletionPipeline._process) -/

/-- Registered entry of an Until validator: the tuple
(callback, use_all_text, max_rounds) appended by CompletionPipeline.until.
The callback returns true when generation must be retried. -/
structure UntilCallback where
  callback : String → Bool
  useAllText : Bool
  maxRounds : Nat

/-- Translation of the round budget computed in CompletionPipeline._process:
min((c[2] for c in self.until_callbacks), default=1). -/
def lowestMaxRounds (cbs : List UntilCallback) : Nat :=
  match cbs.map (fun c => c.maxRounds) with
  | [] => 1
  | x :: xs => xs.foldl min x

/-- Translation of the validator for-loop body inside _process: every
callback runs on the generated chunk (or the pipeline text plus the chunk
when use_all_text is set), and should_retry is overwritten by each result
in turn, so the value after the loop is the result of the last callback;
the trailing continue statement in the source skips nothing.  With no
callbacks the previous value of should_retry is kept. -/
def evalUntil (pipeText generated : String) (prev : Bool) (cbs : List UntilCallback) : Bool :=
  cbs.foldl (fun _ c => c.callback (if c.useAllText then pipeText ++ generated else generated)) prev

/-- Result of resuming the _process generator with one generated chunk. -/
inductive SendResult where
  | suspended (nextRound : Nat)
  | finalized (generated : String)
  | exhausted (maxRounds : Nat) (generated : String)
deriving DecidableEq, Repr

/-- Translation of one resumption of the _process generator.  The generator
is suspended at the yield of round r (rounds are 1-based; the priming next()
leaves it at round 1); on receiving chunk g it runs all validators, then
either re-enters the loop (suspending at round r+1 when should_retry holds
and r is below the shared budget), raises
CompletionExhaustedMaxRoundsError(lowest, g), or returns g.  With no
validators the generator returns the chunk at once. -/
def procSend (pipeText : String) (cbs : List UntilCallback) (round : Nat) (g : String) : SendResult :=
  if cbs.isEmpty then .finalized g
  else
    let lowest := lowestMaxRounds cbs
    let retry := evalUntil pipeText g true cbs
    if retry then
      if round < lowest then .suspended (round + 1)
      else .exhausted lowest g
    else .finalized g

/-- Outcome of driving one _process generator over a list of chunks, one
chunk per round, recording the round at which the machine stopped. -/
inductive ProcResult where
  | pending (nextRound : Nat)
  | finalized (generated : String) (round : Nat)
  | exhausted (maxRounds : Nat) (generated : String) (round : Nat)
deriving DecidableEq, Repr

/-- Drive the _process generator from the given round through a list of
generated chunks, one per round, until it finalizes, raises exhaustion, or
runs out of supplied chunks. -/
def runChunks (pipeText : String) (cbs : List UntilCallback) : Nat → List String → ProcResult
  | r, [] => .pending r
  | r, g :: rest =>
    match procSend pipeText cbs r g with
    | .suspended r2 => runChunks pipeText cbs r2 rest
    | .finalized gen => .finalized gen r
    | .exhausted n gen => .exhausted n gen r

/-! ## Concrete validator configurations for claims C1 and C2 -/

/-- Validator that always demands a retry (max_rounds 5). -/
def alwaysRetry5 : UntilCallback := ⟨fun _ => true, false, 5⟩

/-- Validator that always accepts (max_rounds 5). -/
def alwaysAccept5 : UntilCallback := ⟨fun _ => false, false, 5⟩

/-- Validator that always demands a retry (max_rounds 2). -/
def alwaysRetry2 : UntilCallback := ⟨fun _ => true, false, 2⟩

/-- Validator that accepts exactly the chunk "c2" (max_rounds 2). -/
def acceptOnlyC2 : UntilCallback := ⟨fun g => !(g == "c2"), false, 2⟩

/-- Claim C1 (code_bug): with the two registered validators
[alwaysRetry5, alwaysAccept5], the first validator returns "retry" for the
round-1 chunk "x", yet _process finalizes with "x" instead of retrying:
the for loop overwrites should_retry with each callback result (the
trailing continue is a no-op), so only the last registered validator
decides, contradicting the comment block above _process ("if any tell us
to retry, we do") and the claimed all-validators-accept condition. -/
theorem c1_code_eval :
    procSend "" [alwaysRetry5, alwaysAccept5] 1 "x" = .finalized "x"
      ∧ alwaysRetry5.callback "x" = true := by
  constructor
  · rfl
  · rfl

/-- Claim C2 (code_bug): with validators [alwaysRetry2, acceptOnlyC2] the
shared round ceiling is min(2, 2) = 2; feeding chunks "c1" then "c2"
reaches that ceiling while the first validator still demands a retry for
"c2", yet the machine finalizes with "c2" at round 2 instead of entering
the exhausted state, because only the last registered validator decides
(the same overwritten should_retry slip as in C1).  The round-count bound
itself (chunks consumed never exceed the minimum max-rounds) does hold and
is proved for the executor in the loop characterization below. -/
theorem c2_code_eval :
    runChunks "" [alwaysRetry2, acceptOnlyC2] 1 ["c1", "c2"] = .finalized "c2" 2
      ∧ lowestMaxRounds [alwaysRetry2, acceptOnlyC2] = 2
      ∧ alwaysRetry2.callback "c2" = true := by
  refine ⟨?_, rfl, rfl⟩
  rfl

/-! ## Result records and post-processing (_post_run) -/

/-- Modelled from the spec: the generation-parameter overlay structure
(rigging.generator.GenerateParams, an external collaborator not under
src/).  Only its totality under merging matters to the claims, so it is
represented as a plain field association list; GenerateParams() is the
empty overlay. -/
abbrev GenParams := List (String × String)

/-- Modelled from the spec: base.merge_with(override) of the external
parameter-overlay collaborator — total and right-biased (override entries
take precedence); merging with None keeps the base.  No claim inspects the
merged contents. -/
def mergeWith (base : GenParams) (override : Option GenParams) : GenParams :=
  override.getD [] ++ base

/-- One entry of the list returned by the backend call
generator.generate_texts: the generated text plus the stop reason.  The
usage and extra payloads (copied verbatim into the record and never read
by any claim) and the record uuid / timestamp are not carried. -/
structure Inbound where
  text : String
  stopReason : String
deriving DecidableEq, Repr

/-- Translation of the Completion record as constructed by the executor:
text (the original text), generated, metadata, stop_reason, params and the
failed flag.  The generator back reference, uuid, timestamp, usage and
extra fields are opaque payloads never read by any claim and are not
carried. -/
structure Completion where
  text : String
  generated : String
  metadata : List (String × String)
  stopReason : String
  params : Option GenParams
  failed : Bool
deriving DecidableEq, Repr

/-- Translation of Completion.__len__: len(self.text) + len(self.generated).
Python truthiness of a Completion object is len(c) != 0. -/
def Completion.len (c : Completion) : Nat :=
  c.text.length + c.generated.length

/-- A Then callback: passed a finalized completion, may return a
replacement (async protocol ThenCompletionCallback, modelled as a pure
function since only its return value is observed by the engine). -/
abbrev ThenCb := Completion → Option Completion

/-- A Map callback: passed the full list of completions, returns the list
that replaces it (async protocol MapCompletionCallback, modelled as a pure
function). -/
abbrev MapCb := List Completion → List Completion

/-- Translation of the list comprehension
[new or chat for new, chat in zip(new_completions, completions)] applied
at one position: a None return keeps the original, and a returned
Completion replaces the original only when it is truthy, that is when
Completion.__len__ is nonzero — a returned empty completion is dropped by
the or operator and the original kept. -/
def thenStep (f : ThenCb) (c : Completion) : Completion :=
  match f c with
  | some n => if n.len ≠ 0 then n else c
  | none => c

/-- Translation of one Then stage across the whole list: each record is
passed to the callback (concurrently in the source, gathered in order) and
combined by the or operator positionwise. -/
def applyThenStage (f : ThenCb) (cs : List Completion) : List Completion :=
  cs.map (thenStep f)

/-- Translation of CompletionPipeline._post_run: Map callbacks run first,
sequentially, each consuming the previous output list; then each Then
callback runs as one stage across the current list. -/
def post_run (mapCbs : List MapCb) (thenCbs : List ThenCb) (cs : List Completion) : List Completion :=
  let cs := mapCbs.foldl (fun acc m => m acc) cs
  thenCbs.foldl (fun acc f => applyThenStage f acc) cs

/-- Fold of the per-record Then pipeline: the value a single record has
after all Then stages have run, each stage seeing the previous result. -/
def thenFold (thenCbs : List ThenCb) (c : Completion) : Completion :=
  thenCbs.foldl (fun c f => thenStep f c) c

/-- Helper: the stage-major Then loop of _post_run equals the record-major
fold — every record's final value is the chain of thenStep applications,
so a retained replacement is exactly what all later Then callbacks see. -/
theorem post_run_eq_fold (mapCbs : List MapCb) (thenCbs : List ThenCb) (cs : List Completion) :
    post_run mapCbs thenCbs cs
      = (mapCbs.foldl (fun acc m => m acc) cs).map (thenFold thenCbs) := by
  unfold post_run
  generalize mapCbs.foldl (fun acc m => m acc) cs = l
  induction thenCbs generalizing l with
  | nil => exact (List.map_id l).symm
  | cons f fs ih =>
    simp only [List.foldl_cons]
    rw [ih]
    simp only [applyThenStage, List.map_map]
    rfl

/-- A nonempty completion used as the original record in the C5 scenario. -/
def c5orig : Completion := ⟨"T", "G", [], "stop", none, false⟩

/-- The empty completion (text and generated both empty, so
Completion.__len__ is 0 and the object is falsy in Python). -/
def c5empty : Completion := ⟨"", "", [], "", none, false⟩

/-- Claim C5 counterexample: a Then callback that returns the (non-None)
empty completion does not replace the original — the or operator in
_post_run sees a falsy Completion (its __len__ is 0) and keeps the
original record, contradicting the claim that every non-None return
becomes the record seen in the final list. -/
theorem c5_counterexample :
    post_run [] [fun _ => some c5empty] [c5orig] = [c5orig]
      ∧ c5orig ≠ c5empty := by
  constructor
  · rfl
  · decide

/-- Claim C5 (corrected): Map callbacks chain sequentially, each receiving
the previous Map output; then the Then stages run in registration order,
and the final value of each record is the per-record chain of thenStep
applications — so whenever a Then callback returns a non-None completion
of nonzero length (Completion.__len__), that replacement (not the
original) is what every subsequent Then callback and the final list see,
while a None return, or a returned completion of length zero (dropped by
the or operator), keeps the existing record. -/
theorem c5_amended (mapCbs : List MapCb) (thenCbs : List ThenCb) (cs : List Completion)
    (f : ThenCb) (c n : Completion) :
    post_run mapCbs thenCbs cs
        = (mapCbs.foldl (fun acc m => m acc) cs).map (thenFold thenCbs)
      ∧ (f c = some n → n.len ≠ 0 → thenStep f c = n)
      ∧ (f c = some n → n.len = 0 → thenStep f c = c)
      ∧ (f c = none → thenStep f c = c) := by
  refine ⟨post_run_eq_fold mapCbs thenCbs cs, ?_, ?_, ?_⟩
  · intro hf hn
    simp [thenStep, hf, hn]
  · intro hf hn
    simp [thenStep, hf, hn]
  · intro hf
    simp [thenStep, hf]

/-! ## Builder-side callback registry with object identity (clone / watch /
then / map / until)

Python list objects are mutable and shared by reference, so the clone
semantics of CompletionPipeline are modelled with a small heap of lists:
each pipeline attribute holding a callback list is an index into the heap,
and callbacks themselves are represented by identity tokens (Nat), since
registration and deduplication compare callbacks by identity and the
claims only concern list growth and sharing. -/

/-- Heap of Python list objects; an index is a list object's identity. -/
structure CallbackHeap where
  lists : List (List Nat)
deriving DecidableEq, Repr

/-- Number of allocated list objects. -/
def CallbackHeap.size (h : CallbackHeap) : Nat := h.lists.length

/-- Read the list object at an index (unallocated indices read as []). -/
def CallbackHeap.get (h : CallbackHeap) (i : Nat) : List Nat :=
  (h.lists.get? i).getD []

/-- Allocate a fresh list object with the given contents, returning its
identity. -/
def CallbackHeap.alloc (h : CallbackHeap) (v : List Nat) : Nat × CallbackHeap :=
  (h.lists.length, ⟨h.lists ++ [v]⟩)

/-- Overwrite the list object at an index (in-place list mutation). -/
def CallbackHeap.put (h : CallbackHeap) (i : Nat) (v : List Nat) : CallbackHeap :=
  ⟨h.lists.set i v⟩

/-- The attribute slots of one CompletionPipeline object: heap indices of
its until_callbacks, until_types, then_callbacks, map_callbacks and
watch_callbacks lists, plus the metadata dict (held by value, since the
claims never share it). -/
structure PipelineRefs where
  untilId : Nat
  typesId : Nat
  thenId : Nat
  mapId : Nat
  watchId : Nat
  metadata : List (String × String)
deriving DecidableEq, Repr

/-- Translation of CompletionPipeline.__init__: fresh empty lists for
until_callbacks, until_types, then_callbacks and map_callbacks, and
self.watch_callbacks = watch_callbacks or [] — when the passed list is
None or empty (falsy) a fresh empty list is created, but a nonempty passed
list is installed as the very same object. -/
def pipelineInit (h : CallbackHeap) (watchArg : Option Nat) : PipelineRefs × CallbackHeap :=
  let (u, h) := h.alloc []
  let (ty, h) := h.alloc []
  let (tn, h) := h.alloc []
  let (mp, h) := h.alloc []
  let (w, h) :=
    match watchArg with
    | some wid => if h.get wid = [] then h.alloc [] else (wid, h)
    | none => h.alloc []
  (⟨u, ty, tn, mp, w, []⟩, h)

/-- Translation of CompletionPipeline.clone: the constructor is called with
watch_callbacks=self.watch_callbacks (passing the source's list object),
and unless only_text is set, the until/types/then/map attributes are
rebound to shallow copies (fresh list objects with the same elements) and
the metadata is deep-copied. -/
def pipeClone (h : CallbackHeap) (p : PipelineRefs) (onlyText : Bool) : PipelineRefs × CallbackHeap :=
  let (q, h) := pipelineInit h (some p.watchId)
  if onlyText then (q, h)
  else
    let (u, h) := h.alloc (h.get p.untilId)
    let (ty, h) := h.alloc (h.get p.typesId)
    let (tn, h) := h.alloc (h.get p.thenId)
    let (mp, h) := h.alloc (h.get p.mapId)
    ({ q with untilId := u, typesId := ty, metadata := p.metadata, thenId := tn, mapId := mp }, h)

/-- Translation of CompletionPipeline.watch for a single callback: append
unless the callback is already present (identity comparison), or always
when allow_duplicates is set. -/
def watchReg (h : CallbackHeap) (p : PipelineRefs) (cb : Nat) (allowDup : Bool) : CallbackHeap :=
  if allowDup || !((h.get p.watchId).contains cb) then
    h.put p.watchId (h.get p.watchId ++ [cb])
  else h

/-- Translation of CompletionPipeline.then: unconditional append to
then_callbacks. -/
def thenReg (h : CallbackHeap) (p : PipelineRefs) (cb : Nat) : CallbackHeap :=
  h.put p.thenId (h.get p.thenId ++ [cb])

/-- Translation of CompletionPipeline.map: unconditional append to
map_callbacks. -/
def mapReg (h : CallbackHeap) (p : PipelineRefs) (cb : Nat) : CallbackHeap :=
  h.put p.mapId (h.get p.mapId ++ [cb])

/-- Translation of CompletionPipeline.until for a registered tuple
(represented by its identity): unconditional append to until_callbacks. -/
def untilReg (h : CallbackHeap) (p : PipelineRefs) (cb : Nat) : CallbackHeap :=
  h.put p.untilId (h.get p.untilId ++ [cb])

/-- The five lists of a pipeline as read through its slots. -/
def sourceLists (h : CallbackHeap) (p : PipelineRefs) : List (List Nat) :=
  [h.get p.untilId, h.get p.typesId, h.get p.thenId, h.get p.mapId, h.get p.watchId]

/-- All five slots of a pipeline point at allocated list objects. -/
def PipelineRefs.validIn (p : PipelineRefs) (h : CallbackHeap) : Prop :=
  p.untilId < h.size ∧ p.typesId < h.size ∧ p.thenId < h.size
    ∧ p.mapId < h.size ∧ p.watchId < h.size

/-- The watch slot is a different list object from the other four slots
(always true for pipelines built by the constructor). -/
def PipelineRefs.watchSeparate (p : PipelineRefs) : Prop :=
  p.watchId ≠ p.untilId ∧ p.watchId ≠ p.typesId ∧ p.watchId ≠ p.thenId ∧ p.watchId ≠ p.mapId

/-- Claim C6 counterexample: build a pipeline P, register one watch
callback on it, clone it, and register a second watch callback on the
clone; P's own watch list has grown to both callbacks, because the
constructor installed the nonempty source list itself into the clone
(watch_callbacks or [] keeps the same list object), so the claimed
independence of the clone's lists fails for Watch. -/
theorem c6_counterexample :
    (let h0 : CallbackHeap := ⟨[]⟩
     let pi := pipelineInit h0 none
     let h1 := watchReg pi.2 pi.1 0 false
     let cl := pipeClone h1 pi.1 false
     let h2 := watchReg cl.2 cl.1 1 false
     h2.get pi.1.watchId = [0, 1] ∧ h1.get pi.1.watchId = [0]) := by
  decide

/-- Reading an already-allocated list object is unaffected by further
allocations. -/
theorem heap_get_append (h : CallbackHeap) (ext : List (List Nat)) (i : Nat)
    (hi : i < h.size) : CallbackHeap.get ⟨h.lists ++ ext⟩ i = h.get i := by
  simp only [CallbackHeap.get, List.get?_eq_getElem?]
  rw [List.getElem?_append_left (show i < h.lists.length from hi)]

/-- Mutating one list object leaves every other list object unchanged. -/
theorem CallbackHeap.get_put_ne (h : CallbackHeap) (i j : Nat) (v : List Nat)
    (hij : i ≠ j) : (h.put i v).get j = h.get j := by
  simp only [CallbackHeap.put, CallbackHeap.get, List.get?_eq_getElem?]
  rw [List.getElem?_set_ne hij]

/-- Reading back a mutated list object. -/
theorem CallbackHeap.get_put_self (h : CallbackHeap) (i : Nat) (v : List Nat)
    (hi : i < h.size) : (h.put i v).get i = v := by
  simp only [CallbackHeap.put, CallbackHeap.get, List.get?_eq_getElem?]
  rw [List.getElem?_set_eq_of_lt _ (show i < h.lists.length from hi)]
  rfl

/-- Characterization of pipeClone on a valid pipeline: the clone's
until/types/then/map slots are freshly allocated copies, while the watch
slot is a fresh empty list only when the source's watch list is empty and
is otherwise the source's own watch list object. -/
theorem pipeClone_eq (h : CallbackHeap) (p : PipelineRefs) (hv : p.validIn h) :
    pipeClone h p false =
      if h.get p.watchId = [] then
        (⟨h.size + 5, h.size + 6, h.size + 7, h.size + 8, h.size + 4, p.metadata⟩,
         ⟨h.lists ++ [[], [], [], [], [], h.get p.untilId, h.get p.typesId, h.get p.thenId, h.get p.mapId]⟩)
      else
        (⟨h.size + 4, h.size + 5, h.size + 6, h.size + 7, p.watchId, p.metadata⟩,
         ⟨h.lists ++ [[], [], [], [], h.get p.untilId, h.get p.typesId, h.get p.thenId, h.get p.mapId]⟩) := by
  obtain ⟨h1, h2, h3, h4, h5⟩ := hv
  simp only [CallbackHeap.size] at h1 h2 h3 h4 h5
  simp only [pipeClone, pipelineInit, CallbackHeap.alloc]
  simp only [CallbackHeap.get, CallbackHeap.size, List.get?_eq_getElem?, List.getElem?_append,
    List.append_assoc, List.singleton_append, List.cons_append, List.nil_append,
    List.length_append, List.length_cons, List.length_nil, h1, h2, h3, h4, h5, if_pos,
    Bool.false_eq_true, if_false]
  split <;> simp [CallbackHeap.get, List.get?_eq_getElem?] <;>
    refine ⟨?_, ?_, ?_, ?_⟩ <;>
    first
      | rw [if_pos (by omega), List.getElem?_append_left (by omega)]
      | rw [List.getElem?_append_left (by omega)]

/-- Componentwise extensionality for the five source lists. -/
theorem sourceLists_ext (h h2 : CallbackHeap) (p : PipelineRefs)
    (e1 : h2.get p.untilId = h.get p.untilId) (e2 : h2.get p.typesId = h.get p.typesId)
    (e3 : h2.get p.thenId = h.get p.thenId) (e4 : h2.get p.mapId = h.get p.mapId)
    (e5 : h2.get p.watchId = h.get p.watchId) :
    sourceLists h2 p = sourceLists h p := by
  rw [sourceLists, sourceLists, e1, e2, e3, e4, e5]

/-- Mutating a list object allocated after the base heap leaves every list
object of the base heap unchanged. -/
theorem put_fresh_get (base : CallbackHeap) (ext : List (List Nat)) (idx j : Nat)
    (v : List Nat) (hj : j < base.size) (hidx : base.size ≤ idx) :
    ((CallbackHeap.mk (base.lists ++ ext)).put idx v).get j = base.get j := by
  rw [CallbackHeap.get_put_ne _ _ _ _ (by omega), heap_get_append base ext j hj]

/-- Size of a heap extended by allocations. -/
theorem size_mk_append (base : CallbackHeap) (ext : List (List Nat)) :
    (CallbackHeap.mk (base.lists ++ ext)).size = base.size + ext.length := by
  simp [CallbackHeap.size]

/-- Claim C6 (corrected): for a pipeline P and its clone C, registering a
new Until, Then or Map callback on C leaves every one of P's callback
lists unchanged (those lists were rebound to fresh copies by clone); but
for Watch the independence holds only when P's watch list is empty at
clone time — when it is nonempty, the constructor installed P's own watch
list object into C (watch_callbacks or []), so a Watch registration on C
also appends to P's watch list. -/
theorem c6_amended (h : CallbackHeap) (p : PipelineRefs) (cb : Nat)
    (hv : p.validIn h) (hd : p.watchSeparate) :
    sourceLists (untilReg (pipeClone h p false).2 (pipeClone h p false).1 cb) p = sourceLists h p
    ∧ sourceLists (thenReg (pipeClone h p false).2 (pipeClone h p false).1 cb) p = sourceLists h p
    ∧ sourceLists (mapReg (pipeClone h p false).2 (pipeClone h p false).1 cb) p = sourceLists h p
    ∧ (h.get p.watchId = [] →
        sourceLists (watchReg (pipeClone h p false).2 (pipeClone h p false).1 cb false) p
          = sourceLists h p)
    ∧ (h.get p.watchId ≠ [] → (h.get p.watchId).contains cb = false →
        (watchReg (pipeClone h p false).2 (pipeClone h p false).1 cb false).get p.watchId
            = h.get p.watchId ++ [cb]
          ∧ (watchReg (pipeClone h p false).2 (pipeClone h p false).1 cb false).get p.untilId
              = h.get p.untilId
          ∧ (watchReg (pipeClone h p false).2 (pipeClone h p false).1 cb false).get p.thenId
              = h.get p.thenId
          ∧ (watchReg (pipeClone h p false).2 (pipeClone h p false).1 cb false).get p.mapId
              = h.get p.mapId) := by
  obtain ⟨hd1, hd2, hd3, hd4⟩ := hd
  have hv' := hv
  obtain ⟨h1, h2, h3, h4, h5⟩ := hv'
  rw [pipeClone_eq h p hv]
  by_cases hE : h.get p.watchId = []
  · rw [if_pos hE]
    simp only [untilReg, thenReg, mapReg, watchReg]
    refine ⟨?_, ?_, ?_, fun _ => ?_, fun hne _ => absurd hE hne⟩
    · exact sourceLists_ext h _ p (put_fresh_get h _ _ _ _ h1 (by omega))
        (put_fresh_get h _ _ _ _ h2 (by omega)) (put_fresh_get h _ _ _ _ h3 (by omega))
        (put_fresh_get h _ _ _ _ h4 (by omega)) (put_fresh_get h _ _ _ _ h5 (by omega))
    · exact sourceLists_ext h _ p (put_fresh_get h _ _ _ _ h1 (by omega))
        (put_fresh_get h _ _ _ _ h2 (by omega)) (put_fresh_get h _ _ _ _ h3 (by omega))
        (put_fresh_get h _ _ _ _ h4 (by omega)) (put_fresh_get h _ _ _ _ h5 (by omega))
    · exact sourceLists_ext h _ p (put_fresh_get h _ _ _ _ h1 (by omega))
        (put_fresh_get h _ _ _ _ h2 (by omega)) (put_fresh_get h _ _ _ _ h3 (by omega))
        (put_fresh_get h _ _ _ _ h4 (by omega)) (put_fresh_get h _ _ _ _ h5 (by omega))
    · split
      · exact sourceLists_ext h _ p (put_fresh_get h _ _ _ _ h1 (by omega))
          (put_fresh_get h _ _ _ _ h2 (by omega)) (put_fresh_get h _ _ _ _ h3 (by omega))
          (put_fresh_get h _ _ _ _ h4 (by omega)) (put_fresh_get h _ _ _ _ h5 (by omega))
      · exact sourceLists_ext h _ p (heap_get_append h _ _ h1) (heap_get_append h _ _ h2)
          (heap_get_append h _ _ h3) (heap_get_append h _ _ h4) (heap_get_append h _ _ h5)
  · rw [if_neg hE]
    simp only [untilReg, thenReg, mapReg, watchReg]
    refine ⟨?_, ?_, ?_, fun hEmp => absurd hEmp hE, fun _ hcb => ?_⟩
    · exact sourceLists_ext h _ p (put_fresh_get h _ _ _ _ h1 (by omega))
        (put_fresh_get h _ _ _ _ h2 (by omega)) (put_fresh_get h _ _ _ _ h3 (by omega))
        (put_fresh_get h _ _ _ _ h4 (by omega)) (put_fresh_get h _ _ _ _ h5 (by omega))
    · exact sourceLists_ext h _ p (put_fresh_get h _ _ _ _ h1 (by omega))
        (put_fresh_get h _ _ _ _ h2 (by omega)) (put_fresh_get h _ _ _ _ h3 (by omega))
        (put_fresh_get h _ _ _ _ h4 (by omega)) (put_fresh_get h _ _ _ _ h5 (by omega))
    · exact sourceLists_ext h _ p (put_fresh_get h _ _ _ _ h1 (by omega))
        (put_fresh_get h _ _ _ _ h2 (by omega)) (put_fresh_get h _ _ _ _ h3 (by omega))
        (put_fresh_get h _ _ _ _ h4 (by omega)) (put_fresh_get h _ _ _ _ h5 (by omega))
    · have hw : (CallbackHeap.mk (h.lists ++ [[], [], [], [], h.get p.untilId, h.get p.typesId,
          h.get p.thenId, h.get p.mapId])).get p.watchId = h.get p.watchId :=
        heap_get_append h _ _ h5
      simp only [hw, hcb, Bool.not_false, Bool.or_true, if_pos]
      have hwlt : p.watchId < (CallbackHeap.mk (h.lists ++ [[], [], [], [], h.get p.untilId,
          h.get p.typesId, h.get p.thenId, h.get p.mapId])).size := by
        rw [size_mk_append]; omega
      refine ⟨?_, ?_, ?_, ?_⟩
      · rw [CallbackHeap.get_put_self _ _ _ hwlt]
      · rw [CallbackHeap.get_put_ne _ _ _ _ hd1, heap_get_append h _ _ h1]
      · rw [CallbackHeap.get_put_ne _ _ _ _ hd3, heap_get_append h _ _ h3]
      · rw [CallbackHeap.get_put_ne _ _ _ _ hd4, heap_get_append h _ _ h4]

/-! ## Structured-parse validator registration (until_parsed_as) -/

/-- One entry of until_callbacks as seen by until_parsed_as: either the
pipeline's own bound method _until_parse_callback (all bound-method
objects of the same pipeline compare equal, so it is one identity) with
the use_all_text flag and max-rounds recorded at first registration, or a
user callback registered through until, identified by a token. -/
inductive RegisteredUntil where
  | parse (useAllText : Bool) (maxRounds : Nat)
  | custom (id : Nat) (useAllText : Bool) (maxRounds : Nat)
deriving DecidableEq, Repr

/-- Whether an until_callbacks entry is the structured-parse validator
(the comparison c[0] == self._until_parse_callback). -/
def RegisteredUntil.isParse : RegisteredUntil → Bool
  | .parse _ _ => true
  | .custom _ _ _ => false

/-- Registration-time state of a pipeline: the until_types list and the
until_callbacks list. -/
structure BuilderState where
  untilTypes : List Nat
  untilCallbacks : List RegisteredUntil
deriving DecidableEq, Repr

/-- Translation of CompletionPipeline.until_parsed_as: extend until_types
with the requested types, then append the parse validator tuple only if no
until_callbacks entry already equals _until_parse_callback. -/
def until_parsed_as (s : BuilderState) (types : List Nat) (useAllText : Bool) (maxRounds : Nat) :
    BuilderState :=
  let s := { s with untilTypes := s.untilTypes ++ types }
  if (s.untilCallbacks.find? RegisteredUntil.isParse).isSome then s
  else { s with untilCallbacks := s.untilCallbacks ++ [.parse useAllText maxRounds] }

/-- Number of structured-parse entries in until_callbacks. -/
def parseCount (s : BuilderState) : Nat :=
  s.untilCallbacks.countP RegisteredUntil.isParse

/-- Apply a sequence of until_parsed_as calls, each with its type list,
use_all_text flag and max-rounds. -/
def applyParsedAsCalls (s : BuilderState) (calls : List (List Nat × Bool × Nat)) : BuilderState :=
  calls.foldl (fun s c => until_parsed_as s c.1 c.2.1 c.2.2) s

/-- Helper: find? for a predicate succeeds exactly when countP is
positive. -/
theorem find_isSome_iff_countP_pos (l : List RegisteredUntil) :
    (l.find? RegisteredUntil.isParse).isSome = true ↔ 0 < l.countP RegisteredUntil.isParse := by
  induction l with
  | nil => simp
  | cons a l ih =>
    by_cases ha : a.isParse
    · rw [List.find?_cons_of_pos _ ha]
      simp only [Option.isSome_some, List.countP_cons, ha, if_true, true_iff]
      omega
    · rw [List.find?_cons_of_neg _ ha, ih]
      simp [List.countP_cons, ha]

/-- Helper: one until_parsed_as call preserves the at-most-one-parse-entry
invariant and appends exactly its types. -/
theorem until_parsed_as_step (s : BuilderState) (types : List Nat) (uat : Bool) (mr : Nat)
    (h : parseCount s ≤ 1) :
    parseCount (until_parsed_as s types uat mr) ≤ 1
      ∧ (until_parsed_as s types uat mr).untilTypes = s.untilTypes ++ types := by
  simp only [until_parsed_as]
  by_cases hf : ((s.untilCallbacks).find? RegisteredUntil.isParse).isSome = true
  · rw [if_pos hf]
    exact ⟨h, rfl⟩
  · rw [if_neg hf]
    refine ⟨?_, rfl⟩
    have hz : s.untilCallbacks.countP RegisteredUntil.isParse = 0 := by
      rcases Nat.eq_zero_or_pos (s.untilCallbacks.countP RegisteredUntil.isParse) with h0 | hp
      · exact h0
      · exact absurd ((find_isSome_iff_countP_pos s.untilCallbacks).mpr hp) hf
    simp only [parseCount, List.countP_append, List.countP_cons, List.countP_nil,
      RegisteredUntil.isParse, if_true, hz]
    omega

/-- Claim C9 (confirmed): starting from any pipeline state holding at most
one structured-parse entry (as every state reachable through the public
builder does), any sequence of until_parsed_as calls leaves at most one
structured-parse entry in until_callbacks, while every requested type is
appended to the shared until_types list in call order. -/
theorem c9_until_parsed_as_dedup (s : BuilderState) (calls : List (List Nat × Bool × Nat))
    (h : parseCount s ≤ 1) :
    parseCount (applyParsedAsCalls s calls) ≤ 1
      ∧ (applyParsedAsCalls s calls).untilTypes
          = s.untilTypes ++ (calls.map (fun c => c.1)).flatten := by
  induction calls generalizing s with
  | nil => simpa [applyParsedAsCalls] using h
  | cons c rest ih =>
    obtain ⟨hc1, hc2⟩ := until_parsed_as_step s c.1 c.2.1 c.2.2 h
    obtain ⟨ih1, ih2⟩ := ih (until_parsed_as s c.1 c.2.1 c.2.2) hc1
    refine ⟨ih1, ?_⟩
    simp only [applyParsedAsCalls, List.foldl_cons] at ih2 ⊢
    rw [ih2, hc2]
    simp [List.flatten]

/-- Witness for C9 at a concrete input: the empty pipeline satisfies the
invariant hypothesis, and three until_parsed_as calls leave one parse
entry and the accumulated type list. -/
theorem c9_witness :
    parseCount ⟨[], []⟩ ≤ 1
      ∧ parseCount (applyParsedAsCalls ⟨[], []⟩ [([1, 2], false, 5), ([3], true, 7), ([4], false, 2)]) ≤ 1
      ∧ (applyParsedAsCalls ⟨[], []⟩ [([1, 2], false, 5), ([3], true, 7), ([4], false, 2)]).untilTypes
          = [] ++ ([[1, 2], [3], [4]] : List (List Nat)).flatten := by
  refine ⟨by decide, ?_⟩
  have h := c9_until_parsed_as_dedup ⟨[], []⟩ [([1, 2], false, 5), ([3], true, 7), ([4], false, 2)]
    (by decide)
  exact ⟨h.1, h.2⟩

/-! ## Batch executor (run_many / run_batch) -/

/-- Modelled from the spec: the backend collaborator
generator.generate_texts, which for each round returns one generated text
with stop reason per request, in the same length and order as the
submitted (text, params) pairs; it is represented pointwise as a function
of the global round index, the submitted text and the submitted params. -/
abbrev Backend := Nat → String → GenParams → Inbound

/-- Translation of the RunState dataclass: the request text, effective
params, the suspended processor (its current 1-based round), the optional
finished completion and the watched flag.  The idx field is bookkeeping
for Python object identity of the state (its position in the states
list); it is set at construction and never changed. -/
structure RunState where
  idx : Nat
  text : String
  params : GenParams
  round : Nat
  completion : Option Completion
  watched : Bool
deriving DecidableEq, Repr

/-- Failures of a run: the ValueError raised for conflicting flags or
mismatched params counts, the CompletionExhaustedMaxRoundsError escaping
when neither skip_failed nor include_failed is set, and an artificial
out-of-fuel marker for the loop measure (never reached when the shared
round budget is positive, since every machine stops within that budget). -/
inductive RunError where
  | valueError
  | exhaustedMaxRounds (rounds : Nat) (generated : String)
  | outOfFuel
deriving DecidableEq, Repr

/-- The completion record the executor builds from one inbound response:
Completion(self.text, generated, generator, params, metadata, stop_reason)
projected to the carried fields. -/
def mkRecord (pipeText : String) (md : List (String × String)) (inb : Inbound)
    (ps : GenParams) (g : String) (fl : Bool) : Completion :=
  ⟨pipeText, g, md, inb.stopReason, some ps, fl⟩

/-- Translation of one send into one state processor inside the executor
round (the body of the for loop over zip(inbounds, pending_states)):
already-finished states are untouched; a pending state receives the
backend text for its prompt, and on StopIteration a Completion is built
(failed defaults to false); on exhaustion the error propagates unless
skip_failed or include_failed is set, in which case a failed Completion
carrying the exhausted text is built. -/
def stepState (backend : Backend) (promptOf : String → String) (pipeText : String)
    (cbs : List UntilCallback) (md : List (String × String)) (skipFailed includeFailed : Bool)
    (k : Nat) (s : RunState) : Except RunError RunState :=
  match s.completion with
  | some _ => .ok s
  | none =>
    match procSend pipeText cbs s.round (backend k (promptOf s.text) s.params).text with
    | .suspended r2 => .ok { s with round := r2 }
    | .finalized g =>
      .ok { s with completion := some (mkRecord pipeText md
        (backend k (promptOf s.text) s.params) s.params g false) }
    | .exhausted n g =>
      if !skipFailed && !includeFailed then .error (.exhaustedMaxRounds n g)
      else .ok { s with completion := some (mkRecord pipeText md
        (backend k (promptOf s.text) s.params) s.params g true) }

/-- Sequentially feed the round inbound texts into all states, stopping at
the first escaping exhaustion error (the raise aborts the whole run and
the partially mutated states are discarded, as in the source). -/
def feedAll (step : RunState → Except RunError RunState) :
    List RunState → Except RunError (List RunState)
  | [] => .ok []
  | s :: rest =>
    match step s with
    | .error e => .error e
    | .ok s2 =>
      match feedAll step rest with
      | .error e => .error e
      | .ok rest2 => .ok (s2 :: rest2)

/-- Mark a newly finished state as watched (the for loop over
to_watch_states). -/
def markWatched (s : RunState) : RunState :=
  if s.completion.isSome && !s.watched then { s with watched := true } else s

/-- Observable outcome of the executor loop: the final states, the list of
submitted prompt batches (one entry per backend call, in call order), and
the watch deliveries (one entry per round, each the list of state
identities with the completions handed to _watch_callback). -/
structure LoopOut where
  states : List RunState
  promptTrace : List (List String)
  watchTrace : List (List (Nat × Completion))
deriving Repr

/-- Translation of the while pending_states loop shared by run_many and
run_batch: while some state is unfinished, submit the pending prompts,
feed each pending state its inbound, hand all newly finished completions
to the watch callbacks, mark them watched, and repeat.  The fuel argument
only bounds the recursion; fuel equal to the shared round budget always
suffices because every machine stops within that many rounds. -/
def runLoop (backend : Backend) (promptOf : String → String) (pipeText : String)
    (cbs : List UntilCallback) (md : List (String × String)) (skipFailed includeFailed : Bool) :
    Nat → Nat → List RunState → Except RunError LoopOut
  | fuel, k, states =>
    if states.all (fun s => s.completion.isSome) then .ok ⟨states, [], []⟩
    else
      match fuel with
      | 0 => .error .outOfFuel
      | fuel + 1 =>
        let prompts := (states.filter (fun s => s.completion.isNone)).map (fun s => promptOf s.text)
        match feedAll (stepState backend promptOf pipeText cbs md skipFailed includeFailed k) states with
        | .error e => .error e
        | .ok states1 =>
          let delivered := states1.filterMap (fun s =>
            match s.completion with
            | some c => if s.watched then none else some (s.idx, c)
            | none => none)
          let states2 := states1.map markWatched
          match runLoop backend promptOf pipeText cbs md skipFailed includeFailed fuel (k + 1) states2 with
          | .error e => .error e
          | .ok rest => .ok ⟨rest.states, prompts :: rest.promptTrace, delivered :: rest.watchTrace⟩

/-- Build the initial run states; idx records each state list position
(Python object identity), the processor is primed at round 1. -/
def initStates : Nat → List (String × GenParams) → List RunState
  | _, [] => []
  | i, (t, ps) :: rest => ⟨i, t, ps, 1, none, false⟩ :: initStates (i + 1) rest

/-- Translation of CompletionPipeline._fit_params: default the params list
to count Nones, reject a length mismatch with ValueError, merge the
pipeline overlay below each entry when present, and replace remaining
Nones with empty GenerateParams(). -/
def fit_params (pipeParams : Option GenParams) (count : Nat)
    (params : Option (List (Option GenParams))) : Except RunError (List GenParams) :=
  let ps := params.getD (List.replicate count none)
  if ps.length ≠ count then .error .valueError
  else
    let ps := match pipeParams with
      | some base => ps.map (fun p => some (mergeWith base p))
      | none => ps
    .ok (ps.map (fun p => p.getD []))

/-- Pipeline configuration at run time: seed text, optional params
overlay, metadata and the registered callbacks.  Watch callbacks are
external effects observed through the watch trace of the loop. -/
structure Pipeline where
  text : String
  params : Option GenParams
  metadata : List (String × String)
  untilCallbacks : List UntilCallback
  thenCallbacks : List ThenCb
  mapCallbacks : List MapCb

/-- Observable outcome of a batch entry point: the returned list or raised
error, the prompt batches submitted to the backend and the watch
deliveries. -/
structure BatchResult where
  result : Except RunError (List Completion)
  promptTrace : List (List String)
  watchTrace : List (List (Nat × Completion))

/-- Translation of CompletionPipeline.run_batch: reject conflicting flags,
fit the params to the inputs, run one state per input text with prompts
self.text + state text, filter out failed records when skip_failed, and
post-process the rest. -/
def run_batch (p : Pipeline) (backend : Backend) (many : List String)
    (params : Option (List (Option GenParams))) (skipFailed includeFailed : Bool) : BatchResult :=
  if skipFailed && includeFailed then ⟨.error .valueError, [], []⟩
  else
    match fit_params p.params many.length params with
    | .error e => ⟨.error e, [], []⟩
    | .ok ps =>
      let states := initStates 0 (many.zip ps)
      match runLoop backend (fun t => p.text ++ t) p.text p.untilCallbacks p.metadata
          skipFailed includeFailed (lowestMaxRounds p.untilCallbacks) 0 states with
      | .error e => ⟨.error e, [], []⟩
      | .ok out =>
        let cs := out.states.filterMap (fun s => s.completion)
        let cs := if skipFailed then cs.filter (fun c => !c.failed) else cs
        ⟨.ok (post_run p.mapCallbacks p.thenCallbacks cs), out.promptTrace, out.watchTrace⟩

/-- Translation of CompletionPipeline.run_many: the same loop with count
copies of the pipeline text as request texts, submitted as prompts
unchanged. -/
def run_many (p : Pipeline) (backend : Backend) (count : Nat)
    (params : Option (List (Option GenParams))) (skipFailed includeFailed : Bool) : BatchResult :=
  if skipFailed && includeFailed then ⟨.error .valueError, [], []⟩
  else
    match fit_params p.params count params with
    | .error e => ⟨.error e, [], []⟩
    | .ok ps =>
      let states := initStates 0 ((List.replicate count p.text).zip ps)
      match runLoop backend (fun t => t) p.text p.untilCallbacks p.metadata
          skipFailed includeFailed (lowestMaxRounds p.untilCallbacks) 0 states with
      | .error e => ⟨.error e, [], []⟩
      | .ok out =>
        let cs := out.states.filterMap (fun s => s.completion)
        let cs := if skipFailed then cs.filter (fun c => !c.failed) else cs
        ⟨.ok (post_run p.mapCallbacks p.thenCallbacks cs), out.promptTrace, out.watchTrace⟩

/-- Translation of CompletionPipeline.run: run_many with count 1 and
include_failed set to allow_failed. -/
def run (p : Pipeline) (backend : Backend) (allowFailed : Bool) : BatchResult :=
  run_many p backend 1 none false allowFailed

/-- A pipeline with no callbacks used by concrete witnesses. -/
def pipe0 : Pipeline := ⟨"T", none, [], [], [], []⟩

/-- A constant backend used by concrete witnesses. -/
def backend0 : Backend := fun _ _ _ => ⟨"G", "stop"⟩

/-- Claim C8 (confirmed): supplying both skip_failed and include_failed,
or a params sequence whose length differs from the number of items, makes
run_batch and run_many return the ValueError immediately: the result
carries an empty prompt trace (no backend call was submitted) and an
empty watch trace (no record was produced). -/
theorem c8_config_errors (p : Pipeline) (backend : Backend) (many : List String)
    (count : Nat) (psb psm : List (Option GenParams)) :
    run_batch p backend many none true true = ⟨.error .valueError, [], []⟩
    ∧ run_many p backend count none true true = ⟨.error .valueError, [], []⟩
    ∧ (psb.length ≠ many.length → ∀ skipFailed includeFailed,
        run_batch p backend many (some psb) skipFailed includeFailed
          = ⟨.error .valueError, [], []⟩)
    ∧ (psm.length ≠ count → ∀ skipFailed includeFailed,
        run_many p backend count (some psm) skipFailed includeFailed
          = ⟨.error .valueError, [], []⟩) := by
  refine ⟨by simp [run_batch], by simp [run_many], ?_, ?_⟩
  · intro hlen skipFailed includeFailed
    have hf : fit_params p.params many.length (some psb) = .error .valueError := by
      simp only [fit_params, Option.getD]
      rw [if_pos hlen]
    by_cases hflags : (skipFailed && includeFailed) = true
    · simp [run_batch, hflags]
    · simp [run_batch, hflags, hf]
  · intro hlen skipFailed includeFailed
    have hf : fit_params p.params count (some psm) = .error .valueError := by
      simp only [fit_params, Option.getD]
      rw [if_pos hlen]
    by_cases hflags : (skipFailed && includeFailed) = true
    · simp [run_many, hflags]
    · simp [run_many, hflags, hf]

/-- Witness for C8 at concrete inputs: a one-element batch with an empty
params list, and a count-1 run with a two-element params list, both
rejected. -/
theorem c8_witness :
    run_batch pipe0 backend0 ["a"] (some []) false false = ⟨.error .valueError, [], []⟩
    ∧ run_many pipe0 backend0 1 (some [none, none]) false false
        = ⟨.error .valueError, [], []⟩ :=
  ⟨(c8_config_errors pipe0 backend0 ["a"] 1 [] [none, none]).2.2.1 (by decide) false false,
   (c8_config_errors pipe0 backend0 ["a"] 1 [] [none, none]).2.2.2 (by decide) false false⟩

/-! ## Characterization lemmas for the retry machine -/

/-- Inversion: a suspension re-enters the loop at the next round and only
happens strictly below the shared budget with validators present. -/
theorem procSend_suspended_inv {pipeText : String} {cbs : List UntilCallback} {r : Nat}
    {g : String} {r2 : Nat} (h : procSend pipeText cbs r g = .suspended r2) :
    r2 = r + 1 ∧ r < lowestMaxRounds cbs ∧ cbs.isEmpty = false := by
  simp only [procSend] at h
  by_cases he : cbs.isEmpty = true
  · rw [if_pos he] at h; simp at h
  · rw [if_neg he] at h
    by_cases hr : evalUntil pipeText g true cbs = true
    · rw [if_pos hr] at h
      by_cases hlt : r < lowestMaxRounds cbs
      · rw [if_pos hlt] at h
        cases h
        exact ⟨rfl, hlt, Bool.not_eq_true _ ▸ he⟩
      · rw [if_neg hlt] at h; simp at h
    · rw [if_neg hr] at h; simp at h

/-- Inversion: a finalization returns the received chunk itself. -/
theorem procSend_finalized_inv {pipeText : String} {cbs : List UntilCallback} {r : Nat}
    {g g2 : String} (h : procSend pipeText cbs r g = .finalized g2) : g2 = g := by
  simp only [procSend] at h
  by_cases he : cbs.isEmpty = true
  · rw [if_pos he] at h; cases h; rfl
  · rw [if_neg he] at h
    by_cases hr : evalUntil pipeText g true cbs = true
    · rw [if_pos hr] at h
      by_cases hlt : r < lowestMaxRounds cbs
      · rw [if_pos hlt] at h; simp at h
      · rw [if_neg hlt] at h; simp at h
    · rw [if_neg hr] at h; cases h; rfl

/-- Inversion: an exhaustion carries the shared budget and the received
chunk, and only happens at or above the budget. -/
theorem procSend_exhausted_inv {pipeText : String} {cbs : List UntilCallback} {r : Nat}
    {g : String} {n : Nat} {g2 : String}
    (h : procSend pipeText cbs r g = .exhausted n g2) :
    n = lowestMaxRounds cbs ∧ g2 = g ∧ lowestMaxRounds cbs ≤ r := by
  simp only [procSend] at h
  by_cases he : cbs.isEmpty = true
  · rw [if_pos he] at h; simp at h
  · rw [if_neg he] at h
    by_cases hr : evalUntil pipeText g true cbs = true
    · rw [if_pos hr] at h
      by_cases hlt : r < lowestMaxRounds cbs
      · rw [if_pos hlt] at h; simp at h
      · rw [if_neg hlt] at h
        cases h
        exact ⟨rfl, rfl, Nat.le_of_not_lt hlt⟩
    · rw [if_neg hr] at h; simp at h

/-- A still-pending run continues over appended chunks from the reached
round. -/
theorem runChunks_append_pending (pipeText : String) (cbs : List UntilCallback)
    (xs : List String) : ∀ (r r2 : Nat) (ys : List String),
    runChunks pipeText cbs r xs = .pending r2 →
    runChunks pipeText cbs r (xs ++ ys) = runChunks pipeText cbs r2 ys := by
  induction xs with
  | nil =>
    intro r r2 ys h
    simp only [runChunks] at h
    cases h
    rfl
  | cons g rest ih =>
    intro r r2 ys h
    simp only [runChunks] at h
    simp only [List.cons_append, runChunks]
    cases hp : procSend pipeText cbs r g with
    | suspended r3 =>
      rw [hp] at h
      exact ih r3 r2 ys h
    | finalized gen => rw [hp] at h; simp at h
    | exhausted n gen => rw [hp] at h; simp at h

/-- A finalized run ignores appended chunks. -/
theorem runChunks_append_finalized (pipeText : String) (cbs : List UntilCallback)
    (xs : List String) : ∀ (r : Nat) (g : String) (j : Nat) (ys : List String),
    runChunks pipeText cbs r xs = .finalized g j →
    runChunks pipeText cbs r (xs ++ ys) = .finalized g j := by
  induction xs with
  | nil =>
    intro r g j ys h
    simp only [runChunks] at h
    simp at h
  | cons g0 rest ih =>
    intro r g j ys h
    simp only [runChunks] at h
    simp only [List.cons_append, runChunks]
    cases hp : procSend pipeText cbs r g0 with
    | suspended r3 =>
      rw [hp] at h
      exact ih r3 g j ys h
    | finalized gen => rw [hp] at h; exact h
    | exhausted n gen => rw [hp] at h; simp at h

/-- An exhausted run ignores appended chunks. -/
theorem runChunks_append_exhausted (pipeText : String) (cbs : List UntilCallback)
    (xs : List String) : ∀ (r n : Nat) (g : String) (j : Nat) (ys : List String),
    runChunks pipeText cbs r xs = .exhausted n g j →
    runChunks pipeText cbs r (xs ++ ys) = .exhausted n g j := by
  induction xs with
  | nil =>
    intro r n g j ys h
    simp only [runChunks] at h
    simp at h
  | cons g0 rest ih =>
    intro r n g j ys h
    simp only [runChunks] at h
    simp only [List.cons_append, runChunks]
    cases hp : procSend pipeText cbs r g0 with
    | suspended r3 =>
      rw [hp] at h
      exact ih r3 n g j ys h
    | finalized gen => rw [hp] at h; simp at h
    | exhausted n2 gen => rw [hp] at h; exact h

/-- Rounds reached by a pending run stay within the shared budget. -/
theorem runChunks_pending_le (pipeText : String) (cbs : List UntilCallback)
    (xs : List String) : ∀ (r r2 : Nat),
    r ≤ lowestMaxRounds cbs → runChunks pipeText cbs r xs = .pending r2 →
    r2 ≤ lowestMaxRounds cbs := by
  induction xs with
  | nil =>
    intro r r2 hr h
    simp only [runChunks] at h
    cases h
    exact hr
  | cons g rest ih =>
    intro r r2 hr h
    simp only [runChunks] at h
    cases hp : procSend pipeText cbs r g with
    | suspended r3 =>
      rw [hp] at h
      obtain ⟨hr3, hlt, _⟩ := procSend_suspended_inv hp
      exact ih r3 r2 (by omega) h
    | finalized gen => rw [hp] at h; simp at h
    | exhausted n gen => rw [hp] at h; simp at h

/-- An exhaustion starting from a round within the budget happens exactly
at the budget round and returns the chunk consumed there. -/
theorem runChunks_exhausted_inv (pipeText : String) (cbs : List UntilCallback)
    (xs : List String) : ∀ (r0 n : Nat) (g : String) (j : Nat),
    r0 ≤ lowestMaxRounds cbs →
    runChunks pipeText cbs r0 xs = .exhausted n g j →
    n = lowestMaxRounds cbs ∧ j = lowestMaxRounds cbs
      ∧ xs.get? (lowestMaxRounds cbs - r0) = some g := by
  induction xs with
  | nil =>
    intro r0 n g j hr h
    simp only [runChunks] at h
    simp at h
  | cons g0 rest ih =>
    intro r0 n g j hr h
    simp only [runChunks] at h
    cases hp : procSend pipeText cbs r0 g0 with
    | suspended r3 =>
      rw [hp] at h
      obtain ⟨hr3, hlt, _⟩ := procSend_suspended_inv hp
      obtain ⟨e1, e2, e3⟩ := ih r3 n g j (by omega) h
      refine ⟨e1, e2, ?_⟩
      have hd : lowestMaxRounds cbs - r0 = (lowestMaxRounds cbs - r3) + 1 := by omega
      rw [hd]
      simpa using e3
    | finalized gen => rw [hp] at h; simp at h
    | exhausted n2 gen =>
      rw [hp] at h
      cases h
      obtain ⟨e1, e2, e3⟩ := procSend_exhausted_inv hp
      have : r0 = lowestMaxRounds cbs := by omega
      subst this
      refine ⟨e1, rfl, ?_⟩
      simp [e2]

/-- The per-request stream of generated texts: the text the backend
returns for this prompt and params in each global round. -/
def streamTexts (backend : Backend) (prompt : String) (ps : GenParams) (n : Nat) : List String :=
  (List.range n).map (fun j => (backend j prompt ps).text)

/-- One more round extends the stream by the next backend text. -/
theorem streamTexts_succ (backend : Backend) (prompt : String) (ps : GenParams) (n : Nat) :
    streamTexts backend prompt ps (n + 1)
      = streamTexts backend prompt ps n ++ [(backend n prompt ps).text] := by
  simp [streamTexts, List.range_succ]

/-- A shorter stream is a prefix of a longer one. -/
theorem streamTexts_split (backend : Backend) (prompt : String) (ps : GenParams)
    {a b : Nat} (hab : a ≤ b) :
    streamTexts backend prompt ps b
      = streamTexts backend prompt ps a
          ++ ((List.range (b - a)).map (fun j => (backend (a + j) prompt ps).text)) := by
  conv_lhs => rw [show b = a + (b - a) by omega]
  simp [streamTexts, List.range_add, List.map_map]

/-! ## Loop characterization -/

/-- Expected relation between a state at loop entry and the state the loop
leaves behind: finished states are untouched; a pending state is decided
by driving its processor over the texts the backend returns for its prompt
during the shared budget, finalizing with the accepted chunk or (only
under skip_failed or include_failed) failing with the exhausted chunk, in
both cases watched and carrying the stop reason of its final round. -/
def finalOf (backend : Backend) (promptOf : String → String) (pipeText : String)
    (cbs : List UntilCallback) (md : List (String × String)) (skipFailed includeFailed : Bool)
    (s s2 : RunState) : Prop :=
  match s.completion with
  | some _ => s2 = s
  | none =>
    match runChunks pipeText cbs 1
        (streamTexts backend (promptOf s.text) s.params (lowestMaxRounds cbs)) with
    | .pending _ => False
    | .finalized g r =>
      s2 = { s with
             round := r,
             completion := some (mkRecord pipeText md
               (backend (r - 1) (promptOf s.text) s.params) s.params g false),
             watched := true }
    | .exhausted _ g r =>
      (skipFailed = true ∨ includeFailed = true)
      ∧ s2 = { s with
               round := r,
               completion := some (mkRecord pipeText md
                 (backend (r - 1) (promptOf s.text) s.params) s.params g true),
               watched := true }

/-- Inversion of one successful executor step on one state. -/
theorem stepState_ok_inv (backend : Backend) (promptOf : String → String) (pipeText : String)
    (cbs : List UntilCallback) (md : List (String × String)) (sf incl : Bool) (k : Nat)
    (s t1 : RunState) (h : stepState backend promptOf pipeText cbs md sf incl k s = .ok t1) :
    (s.completion.isSome = true → t1 = s)
      ∧ (s.completion = none →
          (∃ r2, procSend pipeText cbs s.round (backend k (promptOf s.text) s.params).text
              = .suspended r2 ∧ t1 = { s with round := r2 })
          ∨ (∃ g, procSend pipeText cbs s.round (backend k (promptOf s.text) s.params).text
              = .finalized g
              ∧ t1 = { s with completion := some (mkRecord pipeText md
                  (backend k (promptOf s.text) s.params) s.params g false) })
          ∨ (∃ n g, procSend pipeText cbs s.round (backend k (promptOf s.text) s.params).text
              = .exhausted n g ∧ (sf = true ∨ incl = true)
              ∧ t1 = { s with completion := some (mkRecord pipeText md
                  (backend k (promptOf s.text) s.params) s.params g true) })) := by
  obtain ⟨im, tx, pr, rd, co, wa⟩ := s
  cases co with
  | some c =>
    simp only [stepState] at h
    cases h
    exact ⟨fun _ => rfl, fun hn => Option.noConfusion hn⟩
  | none =>
    simp only [stepState] at h
    refine ⟨fun habs => by simp at habs, fun _ => ?_⟩
    cases hp : procSend pipeText cbs rd (backend k (promptOf tx) pr).text with
    | suspended r2 =>
      rw [hp] at h
      cases h
      exact Or.inl ⟨r2, rfl, rfl⟩
    | finalized g =>
      rw [hp] at h
      cases h
      exact Or.inr (Or.inl ⟨g, rfl, rfl⟩)
    | exhausted n g =>
      rw [hp] at h
      by_cases hfl : (!sf && !incl) = true
      · simp [hfl] at h
      · simp only [hfl, Bool.false_eq_true, if_false, Except.ok.injEq] at h
        subst h
        have hor : sf = true ∨ incl = true := by
          cases sf <;> cases incl <;> simp_all
        exact Or.inr (Or.inr ⟨n, g, rfl, hor, rfl⟩)

/-- A successful executor step keeps idx, text, params and watched. -/
theorem stepState_ok_frame (backend : Backend) (promptOf : String → String) (pipeText : String)
    (cbs : List UntilCallback) (md : List (String × String)) (sf incl : Bool) (k : Nat)
    (s t1 : RunState) (h : stepState backend promptOf pipeText cbs md sf incl k s = .ok t1) :
    t1.idx = s.idx ∧ t1.text = s.text ∧ t1.params = s.params ∧ t1.watched = s.watched := by
  obtain ⟨im, tx, pr, rd, co, wa⟩ := s
  cases co with
  | some c =>
    simp only [stepState] at h
    cases h
    exact ⟨rfl, rfl, rfl, rfl⟩
  | none =>
    simp only [stepState] at h
    cases hp : procSend pipeText cbs rd (backend k (promptOf tx) pr).text with
    | suspended r2 => rw [hp] at h; cases h; exact ⟨rfl, rfl, rfl, rfl⟩
    | finalized g => rw [hp] at h; cases h; exact ⟨rfl, rfl, rfl, rfl⟩
    | exhausted n g =>
      rw [hp] at h
      by_cases hfl : (!sf && !incl) = true
      · simp [hfl] at h
      · simp only [hfl, Bool.false_eq_true, if_false, Except.ok.injEq] at h
        subst h
        exact ⟨rfl, rfl, rfl, rfl⟩

/-- Marking keeps everything except the watched flag, which becomes true
exactly for finished states. -/
theorem markWatched_spec (t : RunState) :
    (markWatched t).completion = t.completion ∧ (markWatched t).idx = t.idx
      ∧ (markWatched t).text = t.text ∧ (markWatched t).params = t.params
      ∧ (markWatched t).round = t.round
      ∧ (markWatched t).watched = (t.completion.isSome || t.watched) := by
  cases hc : t.completion.isSome <;> cases hw : t.watched <;>
    simp [markWatched, hc, hw]

/-- Marking a pending state changes nothing. -/
theorem markWatched_pending (t : RunState) (h : t.completion = none) : markWatched t = t := by
  simp [markWatched, h]

/-- Pointwise characterization of a successful feed: same length, and each
output state is the step of the input state at the same position. -/
theorem feedAll_ok_get (step : RunState → Except RunError RunState) :
    ∀ (l l2 : List RunState), feedAll step l = .ok l2 →
    l2.length = l.length
      ∧ ∀ i s, l.get? i = some s → ∃ s2, l2.get? i = some s2 ∧ step s = .ok s2 := by
  intro l
  induction l with
  | nil =>
    intro l2 h
    simp only [feedAll] at h
    cases h
    exact ⟨rfl, by intro i s hs; simp at hs⟩
  | cons s rest ih =>
    intro l2 h
    simp only [feedAll] at h
    cases hs : step s with
    | error e => rw [hs] at h; simp at h
    | ok s2 =>
      rw [hs] at h
      cases hr : feedAll step rest with
      | error e => rw [hr] at h; simp at h
      | ok rest2 =>
        rw [hr] at h
        cases h
        obtain ⟨hlen, hget⟩ := ih rest2 hr
        refine ⟨by simp [hlen], ?_⟩
        intro i t ht
        cases i with
        | zero =>
          simp only [List.get?] at ht
          cases ht
          exact ⟨s2, rfl, hs⟩
        | succ i =>
          simp only [List.get?] at ht ⊢
          exact hget i t ht

/-- Unfolding of the loop with no fuel. -/
theorem runLoop_zero_eq (backend : Backend) (promptOf : String → String) (pipeText : String)
    (cbs : List UntilCallback) (md : List (String × String)) (sf incl : Bool)
    (k : Nat) (states : List RunState) :
    runLoop backend promptOf pipeText cbs md sf incl 0 k states
      = if states.all (fun s => s.completion.isSome) then .ok ⟨states, [], []⟩
        else .error .outOfFuel := rfl

/-- Unfolding of one loop iteration. -/
theorem runLoop_succ_eq (backend : Backend) (promptOf : String → String) (pipeText : String)
    (cbs : List UntilCallback) (md : List (String × String)) (sf incl : Bool)
    (fuel k : Nat) (states : List RunState) :
    runLoop backend promptOf pipeText cbs md sf incl (fuel + 1) k states
      = if states.all (fun s => s.completion.isSome) then .ok ⟨states, [], []⟩
        else
          match feedAll (stepState backend promptOf pipeText cbs md sf incl k) states with
          | .error e => .error e
          | .ok states1 =>
            match runLoop backend promptOf pipeText cbs md sf incl fuel (k + 1)
                (states1.map markWatched) with
            | .error e => .error e
            | .ok rest =>
              .ok ⟨rest.states,
                ((states.filter (fun s => s.completion.isNone)).map (fun s => promptOf s.text))
                  :: rest.promptTrace,
                (states1.filterMap (fun s =>
                  match s.completion with
                  | some c => if s.watched then none else some (s.idx, c)
                  | none => none)) :: rest.watchTrace⟩ := rfl

/-- One executor round advances one state by exactly one chunk: the
boundary and alignment invariants are preserved for the marked state, and
any final state reachable from the marked state is exactly the final
state the entry state expects. -/
theorem state_step_char (backend : Backend) (promptOf : String → String) (pipeText : String)
    (cbs : List UntilCallback) (md : List (String × String)) (sf incl : Bool) (k : Nat)
    (s t1 : RunState) (hlow : 0 < lowestMaxRounds cbs)
    (hstep : stepState backend promptOf pipeText cbs md sf incl k s = .ok t1)
    (hb : s.watched = s.completion.isSome)
    (hi : s.completion = none → s.round = k + 1
        ∧ runChunks pipeText cbs 1 (streamTexts backend (promptOf s.text) s.params k)
            = .pending (k + 1)) :
    ((markWatched t1).watched = (markWatched t1).completion.isSome)
      ∧ ((markWatched t1).completion = none → (markWatched t1).round = (k + 1) + 1
          ∧ runChunks pipeText cbs 1
              (streamTexts backend (promptOf (markWatched t1).text) (markWatched t1).params (k + 1))
            = .pending ((k + 1) + 1))
      ∧ (∀ s3, finalOf backend promptOf pipeText cbs md sf incl (markWatched t1) s3
          → finalOf backend promptOf pipeText cbs md sf incl s s3) := by
  obtain ⟨hinv1, hinv2⟩ := stepState_ok_inv backend promptOf pipeText cbs md sf incl k s t1 hstep
  cases hc : s.completion with
  | some c =>
    have ht1 : t1 = s := hinv1 (by rw [hc]; rfl)
    subst ht1
    have hw : t1.watched = true := by rw [hb, hc]; rfl
    have hmk : markWatched t1 = t1 := by
      unfold markWatched
      rw [hw]
      simp
    rw [hmk]
    exact ⟨hb, fun hn => absurd (hc.symm.trans hn) (by simp), fun s3 h3 => h3⟩
  | none =>
    obtain ⟨hrd, hpre⟩ := hi hc
    have hwf : s.watched = false := by rw [hb, hc]; rfl
    have hk1L : k + 1 ≤ lowestMaxRounds cbs :=
      runChunks_pending_le pipeText cbs _ 1 (k + 1) hlow hpre
    rcases hinv2 hc with ⟨r2, hp, ht1⟩ | ⟨g, hp, ht1⟩ | ⟨n, g, hp, hfl, ht1⟩
    · -- the processor suspended into the next round
      obtain ⟨hr2, hklt, _⟩ := procSend_suspended_inv hp
      subst ht1
      have hmk : markWatched { s with round := r2 } = { s with round := r2 } :=
        markWatched_pending _ hc
      rw [hmk]
      refine ⟨hb, fun _ => ⟨?_, ?_⟩, fun s3 h3 => ?_⟩
      · show r2 = (k + 1) + 1
        omega
      · simp only []
        rw [streamTexts_succ, runChunks_append_pending pipeText cbs _ 1 (k + 1) _ hpre]
        simp only [runChunks]
        rw [hrd] at hp
        rw [hp]
        simp only [runChunks]
        rw [hr2, hrd]
      · have heq : finalOf backend promptOf pipeText cbs md sf incl { s with round := r2 } s3
            = finalOf backend promptOf pipeText cbs md sf incl s s3 := by
          unfold finalOf
          simp only []
          rw [hc]
        exact heq ▸ h3
    · -- the processor finalized with chunk g
      have hstep1 : runChunks pipeText cbs 1
          (streamTexts backend (promptOf s.text) s.params (k + 1)) = .finalized g (k + 1) := by
        rw [streamTexts_succ, runChunks_append_pending pipeText cbs _ 1 (k + 1) _ hpre]
        simp only [runChunks]
        rw [hrd] at hp
        rw [hp]
      have hful : runChunks pipeText cbs 1
          (streamTexts backend (promptOf s.text) s.params (lowestMaxRounds cbs))
            = .finalized g (k + 1) := by
        rw [streamTexts_split backend (promptOf s.text) s.params hk1L]
        exact runChunks_append_finalized pipeText cbs _ 1 g (k + 1) _ hstep1
      subst ht1
      have hmk : markWatched { s with completion := some (mkRecord pipeText md
          (backend k (promptOf s.text) s.params) s.params g false) }
          = { s with
              completion := some (mkRecord pipeText md
                (backend k (promptOf s.text) s.params) s.params g false),
              watched := true } := by
        unfold markWatched
        simp [hwf]
      rw [hmk]
      refine ⟨rfl, fun hn => by simp at hn, fun s3 h3 => ?_⟩
      simp only [finalOf] at h3
      subst h3
      unfold finalOf
      rw [hc, hful]
      simp only [mkRecord, Nat.add_sub_cancel]
      rw [hrd]
    · -- the processor exhausted with chunk g
      obtain ⟨hn, hg, hge⟩ := procSend_exhausted_inv hp
      have hstep1 : runChunks pipeText cbs 1
          (streamTexts backend (promptOf s.text) s.params (k + 1)) = .exhausted n g (k + 1) := by
        rw [streamTexts_succ, runChunks_append_pending pipeText cbs _ 1 (k + 1) _ hpre]
        simp only [runChunks]
        rw [hrd] at hp
        rw [hp]
      have hful : runChunks pipeText cbs 1
          (streamTexts backend (promptOf s.text) s.params (lowestMaxRounds cbs))
            = .exhausted n g (k + 1) := by
        rw [streamTexts_split backend (promptOf s.text) s.params hk1L]
        exact runChunks_append_exhausted pipeText cbs _ 1 n g (k + 1) _ hstep1
      subst ht1
      have hmk : markWatched { s with completion := some (mkRecord pipeText md
          (backend k (promptOf s.text) s.params) s.params g true) }
          = { s with
              completion := some (mkRecord pipeText md
                (backend k (promptOf s.text) s.params) s.params g true),
              watched := true } := by
        unfold markWatched
        simp [hwf]
      rw [hmk]
      refine ⟨rfl, fun hn2 => by simp at hn2, fun s3 h3 => ?_⟩
      simp only [finalOf] at h3
      subst h3
      unfold finalOf
      rw [hc, hful]
      refine ⟨hfl, ?_⟩
      simp only [mkRecord, Nat.add_sub_cancel]
      rw [hrd]

/-- Characterization of a successful executor loop from any reachable
round: under the boundary invariant (watched iff finished) and alignment
invariant (every pending processor sits at round k+1 having consumed the
first k backend texts for its prompt), a successful loop returns one final
state per entry state, positionally, each being what finalOf expects. -/
theorem runLoop_ok_char (backend : Backend) (promptOf : String → String) (pipeText : String)
    (cbs : List UntilCallback) (md : List (String × String)) (sf incl : Bool) :
    ∀ (fuel k : Nat) (states : List RunState) (out : LoopOut),
    0 < lowestMaxRounds cbs →
    (∀ i s, states.get? i = some s → s.watched = s.completion.isSome) →
    (∀ i s, states.get? i = some s → s.completion = none →
        s.round = k + 1 ∧
        runChunks pipeText cbs 1 (streamTexts backend (promptOf s.text) s.params k)
          = .pending (k + 1)) →
    runLoop backend promptOf pipeText cbs md sf incl fuel k states = .ok out →
    out.states.length = states.length
      ∧ ∀ i s, states.get? i = some s → ∃ s2, out.states.get? i = some s2
          ∧ finalOf backend promptOf pipeText cbs md sf incl s s2 := by
  intro fuel
  induction fuel with
  | zero =>
    intro k states out hlow hbound hinv hrun
    rw [runLoop_zero_eq] at hrun
    by_cases hall : states.all (fun s => s.completion.isSome) = true
    · rw [if_pos hall] at hrun
      cases hrun
      refine ⟨rfl, fun i s hs => ⟨s, hs, ?_⟩⟩
      have hcs : s.completion.isSome = true :=
        List.all_eq_true.mp hall s (List.get?_mem hs)
      unfold finalOf
      cases hc2 : s.completion with
      | some c => simp
      | none => rw [hc2] at hcs; simp at hcs
    · rw [if_neg hall] at hrun
      cases hrun
  | succ fuel ih =>
    intro k states out hlow hbound hinv hrun
    rw [runLoop_succ_eq] at hrun
    by_cases hall : states.all (fun s => s.completion.isSome) = true
    · rw [if_pos hall] at hrun
      cases hrun
      refine ⟨rfl, fun i s hs => ⟨s, hs, ?_⟩⟩
      have hcs : s.completion.isSome = true :=
        List.all_eq_true.mp hall s (List.get?_mem hs)
      unfold finalOf
      cases hc2 : s.completion with
      | some c => simp
      | none => rw [hc2] at hcs; simp at hcs
    · rw [if_neg hall] at hrun
      cases hfeed : feedAll (stepState backend promptOf pipeText cbs md sf incl k) states with
      | error e => rw [hfeed] at hrun; cases hrun
      | ok states1 =>
        rw [hfeed] at hrun
        simp only [] at hrun
        cases hrec : runLoop backend promptOf pipeText cbs md sf incl fuel (k + 1)
            (states1.map markWatched) with
        | error e => rw [hrec] at hrun; cases hrun
        | ok rest =>
          rw [hrec] at hrun
          simp only [] at hrun
          cases hrun
          obtain ⟨hflen, hfget⟩ := feedAll_ok_get
            (stepState backend promptOf pipeText cbs md sf incl k) states states1 hfeed
          have hrev : ∀ i t1, states1.get? i = some t1 →
              ∃ s, states.get? i = some s
                ∧ stepState backend promptOf pipeText cbs md sf incl k s = .ok t1 := by
            intro i t1 ht1
            have hi1 : i < states1.length := by
              obtain ⟨hi1, _⟩ := List.get?_eq_some.mp ht1
              exact hi1
            have hi0 : i < states.length := hflen ▸ hi1
            obtain ⟨s, hsget⟩ : ∃ s, states.get? i = some s := by
              cases hq : states.get? i with
              | none =>
                rw [List.get?_eq_none] at hq
                omega
              | some s => exact ⟨s, rfl⟩
            obtain ⟨t1b, ht1b, hstep⟩ := hfget i s hsget
            rw [ht1] at ht1b
            cases ht1b
            exact ⟨s, hsget, hstep⟩
          have hchar : ∀ i s, states.get? i = some s →
              ∃ t1, states1.get? i = some t1
                ∧ ((markWatched t1).watched = (markWatched t1).completion.isSome)
                ∧ ((markWatched t1).completion = none → (markWatched t1).round = (k + 1) + 1
                    ∧ runChunks pipeText cbs 1 (streamTexts backend
                        (promptOf (markWatched t1).text) (markWatched t1).params (k + 1))
                      = .pending ((k + 1) + 1))
                ∧ (∀ s3, finalOf backend promptOf pipeText cbs md sf incl (markWatched t1) s3
                    → finalOf backend promptOf pipeText cbs md sf incl s s3) := by
            intro i s hs
            obtain ⟨t1, ht1, hstep⟩ := hfget i s hs
            exact ⟨t1, ht1, state_step_char backend promptOf pipeText cbs md sf incl k s t1
              hlow hstep (hbound i s hs) (hinv i s hs)⟩
          have hb2 : ∀ i s2, (states1.map markWatched).get? i = some s2 →
              s2.watched = s2.completion.isSome := by
            intro i s2 hs2
            rw [List.get?_map] at hs2
            cases ht1 : states1.get? i with
            | none => rw [ht1] at hs2; cases hs2
            | some t1 =>
              rw [ht1] at hs2
              cases hs2
              obtain ⟨s, hsget, _⟩ := hrev i t1 ht1
              obtain ⟨t1c, ht1c, hfacts⟩ := hchar i s hsget
              rw [ht1] at ht1c
              cases ht1c
              exact hfacts.1
          have hi2 : ∀ i s2, (states1.map markWatched).get? i = some s2 →
              s2.completion = none → s2.round = (k + 1) + 1
                ∧ runChunks pipeText cbs 1
                    (streamTexts backend (promptOf s2.text) s2.params (k + 1))
                  = .pending ((k + 1) + 1) := by
            intro i s2 hs2
            rw [List.get?_map] at hs2
            cases ht1 : states1.get? i with
            | none => rw [ht1] at hs2; cases hs2
            | some t1 =>
              rw [ht1] at hs2
              cases hs2
              obtain ⟨s, hsget, _⟩ := hrev i t1 ht1
              obtain ⟨t1c, ht1c, hfacts⟩ := hchar i s hsget
              rw [ht1] at ht1c
              cases ht1c
              exact hfacts.2.1
          obtain ⟨hrlen, hrget⟩ := ih (k + 1) (states1.map markWatched) rest hlow hb2 hi2 hrec
          refine ⟨?_, ?_⟩
          · show rest.states.length = states.length
            rw [hrlen, List.length_map, hflen]
          · intro i s hs
            obtain ⟨t1, ht1, hfacts⟩ := hchar i s hs
            have hmget : (states1.map markWatched).get? i = some (markWatched t1) := by
              rw [List.get?_map, ht1]
              rfl
            obtain ⟨s3, hs3, hfin⟩ := hrget i (markWatched t1) hmget
            exact ⟨s3, hs3, hfacts.2.2 s3 hfin⟩

/-- Length of the initial state list. -/
theorem initStates_length : ∀ (i : Nat) (l : List (String × GenParams)),
    (initStates i l).length = l.length
  | _, [] => rfl
  | i, _ :: rest => by simp [initStates, initStates_length (i + 1) rest]

/-- Positional contents of the initial state list. -/
theorem initStates_get? : ∀ (i : Nat) (l : List (String × GenParams)) (j : Nat),
    (initStates i l).get? j
      = (l.get? j).map (fun tp => ⟨i + j, tp.1, tp.2, 1, none, false⟩) := by
  intro i l
  induction l generalizing i with
  | nil => intro j; simp [initStates]
  | cons tp rest ih =>
    intro j
    cases j with
    | zero => simp [initStates]
    | succ j =>
      simp only [initStates, List.get?]
      rw [ih (i + 1) j]
      have hadd : i + 1 + j = i + (j + 1) := by omega
      rw [hadd]

/-- Unfolded shape of a successful run_batch: the fitted params and the
loop outcome exist, the returned value is the post-processed list of the
loop completions, and the loop outcome is characterized positionally by
finalOf. -/
theorem run_batch_ok_char (p : Pipeline) (backend : Backend) (many : List String)
    (params : Option (List (Option GenParams))) (sf incl : Bool) (res : List Completion)
    (hlow : 0 < lowestMaxRounds p.untilCallbacks)
    (hres : (run_batch p backend many params sf incl).result = .ok res) :
    ∃ ps out, fit_params p.params many.length params = .ok ps
      ∧ runLoop backend (fun t => p.text ++ t) p.text p.untilCallbacks p.metadata sf incl
          (lowestMaxRounds p.untilCallbacks) 0 (initStates 0 (many.zip ps)) = .ok out
      ∧ run_batch p backend many params sf incl
          = ⟨.ok (post_run p.mapCallbacks p.thenCallbacks
              (if sf then (out.states.filterMap (fun s => s.completion)).filter
                  (fun c => !c.failed)
               else out.states.filterMap (fun s => s.completion))),
             out.promptTrace, out.watchTrace⟩
      ∧ res = post_run p.mapCallbacks p.thenCallbacks
          (if sf then (out.states.filterMap (fun s => s.completion)).filter
              (fun c => !c.failed)
           else out.states.filterMap (fun s => s.completion))
      ∧ out.states.length = (many.zip ps).length
      ∧ (∀ i s, (initStates 0 (many.zip ps)).get? i = some s →
          ∃ s2, out.states.get? i = some s2
            ∧ finalOf backend (fun t => p.text ++ t) p.text p.untilCallbacks p.metadata
                sf incl s s2) := by
  unfold run_batch at hres
  by_cases hflag : (sf && incl) = true
  · rw [if_pos hflag] at hres
    cases hres
  · rw [if_neg hflag] at hres
    cases hfit : fit_params p.params many.length params with
    | error e => rw [hfit] at hres; cases hres
    | ok ps =>
      rw [hfit] at hres
      simp only [] at hres
      cases hloop : runLoop backend (fun t => p.text ++ t) p.text p.untilCallbacks p.metadata
          sf incl (lowestMaxRounds p.untilCallbacks) 0 (initStates 0 (many.zip ps)) with
      | error e => rw [hloop] at hres; cases hres
      | ok out =>
        rw [hloop] at hres
        simp only [] at hres
        cases hres
        have hbound0 : ∀ i s, (initStates 0 (many.zip ps)).get? i = some s →
            s.watched = s.completion.isSome := by
          intro i s hs
          rw [initStates_get?] at hs
          cases hq : (many.zip ps).get? i with
          | none => rw [hq] at hs; cases hs
          | some tp => rw [hq] at hs; cases hs; rfl
        have hinv0 : ∀ i s, (initStates 0 (many.zip ps)).get? i = some s →
            s.completion = none → s.round = 0 + 1
              ∧ runChunks p.text p.untilCallbacks 1
                  (streamTexts backend ((fun t => p.text ++ t) s.text) s.params 0)
                = .pending (0 + 1) := by
          intro i s hs _
          rw [initStates_get?] at hs
          cases hq : (many.zip ps).get? i with
          | none => rw [hq] at hs; cases hs
          | some tp => rw [hq] at hs; cases hs; exact ⟨rfl, rfl⟩
        obtain ⟨hlen, hget⟩ := runLoop_ok_char backend (fun t => p.text ++ t) p.text
          p.untilCallbacks p.metadata sf incl (lowestMaxRounds p.untilCallbacks) 0
          (initStates 0 (many.zip ps)) out hlow hbound0 hinv0 hloop
        refine ⟨ps, out, rfl, hloop, ?_, rfl, ?_, hget⟩
        · unfold run_batch
          rw [if_neg hflag, hfit]
          simp only []
          rw [hloop]
        · rw [hlen, initStates_length]

/-- Unfolded shape of a successful run_many, in the same form. -/
theorem run_many_ok_char (p : Pipeline) (backend : Backend) (count : Nat)
    (params : Option (List (Option GenParams))) (sf incl : Bool) (res : List Completion)
    (hlow : 0 < lowestMaxRounds p.untilCallbacks)
    (hres : (run_many p backend count params sf incl).result = .ok res) :
    ∃ ps out, fit_params p.params count params = .ok ps
      ∧ runLoop backend (fun t => t) p.text p.untilCallbacks p.metadata sf incl
          (lowestMaxRounds p.untilCallbacks) 0
          (initStates 0 ((List.replicate count p.text).zip ps)) = .ok out
      ∧ res = post_run p.mapCallbacks p.thenCallbacks
          (if sf then (out.states.filterMap (fun s => s.completion)).filter
              (fun c => !c.failed)
           else out.states.filterMap (fun s => s.completion))
      ∧ out.states.length = ((List.replicate count p.text).zip ps).length
      ∧ (∀ i s, (initStates 0 ((List.replicate count p.text).zip ps)).get? i = some s →
          ∃ s2, out.states.get? i = some s2
            ∧ finalOf backend (fun t => t) p.text p.untilCallbacks p.metadata
                sf incl s s2) := by
  unfold run_many at hres
  by_cases hflag : (sf && incl) = true
  · rw [if_pos hflag] at hres
    cases hres
  · rw [if_neg hflag] at hres
    cases hfit : fit_params p.params count params with
    | error e => rw [hfit] at hres; cases hres
    | ok ps =>
      rw [hfit] at hres
      simp only [] at hres
      cases hloop : runLoop backend (fun t => t) p.text p.untilCallbacks p.metadata
          sf incl (lowestMaxRounds p.untilCallbacks) 0
          (initStates 0 ((List.replicate count p.text).zip ps)) with
      | error e => rw [hloop] at hres; cases hres
      | ok out =>
        rw [hloop] at hres
        simp only [] at hres
        cases hres
        have hbound0 : ∀ i s,
            (initStates 0 ((List.replicate count p.text).zip ps)).get? i = some s →
            s.watched = s.completion.isSome := by
          intro i s hs
          rw [initStates_get?] at hs
          cases hq : ((List.replicate count p.text).zip ps).get? i with
          | none => rw [hq] at hs; cases hs
          | some tp => rw [hq] at hs; cases hs; rfl
        have hinv0 : ∀ i s,
            (initStates 0 ((List.replicate count p.text).zip ps)).get? i = some s →
            s.completion = none → s.round = 0 + 1
              ∧ runChunks p.text p.untilCallbacks 1
                  (streamTexts backend ((fun t => t) s.text) s.params 0)
                = .pending (0 + 1) := by
          intro i s hs _
          rw [initStates_get?] at hs
          cases hq : ((List.replicate count p.text).zip ps).get? i with
          | none => rw [hq] at hs; cases hs
          | some tp => rw [hq] at hs; cases hs; exact ⟨rfl, rfl⟩
        obtain ⟨hlen, hget⟩ := runLoop_ok_char backend (fun t => t) p.text
          p.untilCallbacks p.metadata sf incl (lowestMaxRounds p.untilCallbacks) 0
          (initStates 0 ((List.replicate count p.text).zip ps)) out hlow hbound0 hinv0 hloop
        refine ⟨ps, out, rfl, hloop, rfl, ?_, hget⟩
        rw [hlen, initStates_length]

/-- Length produced by a successful _fit_params equals the request count. -/
theorem fit_params_ok_length (pp : Option GenParams) (count : Nat)
    (params : Option (List (Option GenParams))) (ps : List GenParams)
    (h : fit_params pp count params = .ok ps) : ps.length = count := by
  unfold fit_params at h
  by_cases hl : (params.getD (List.replicate count none)).length ≠ count
  · rw [if_pos hl] at h
    cases h
  · rw [if_neg hl] at h
    have hlen := not_not.mp hl
    cases pp with
    | some base =>
      cases h
      simp [List.length_map, hlen]
    | none =>
      cases h
      simp [List.length_map, hlen]

/-- Positional shape of filterMap over completions when every state is
finished. -/
theorem filterMap_completion_all_some : ∀ (l : List RunState),
    (∀ i s, l.get? i = some s → s.completion.isSome = true) →
    (l.filterMap (fun s => s.completion)).length = l.length
      ∧ ∀ j, (l.filterMap (fun s => s.completion)).get? j
          = (l.get? j).bind (fun s => s.completion) := by
  intro l
  induction l with
  | nil => exact fun _ => ⟨rfl, fun j => by simp⟩
  | cons a l ih =>
    intro h
    have ha : a.completion.isSome = true := h 0 a rfl
    obtain ⟨c, hc⟩ := Option.isSome_iff_exists.mp ha
    obtain ⟨hl1, hl2⟩ := ih (fun i s hs => h (i + 1) s (by simpa using hs))
    constructor
    · simp [List.filterMap_cons, hc, hl1]
    · intro j
      cases j with
      | zero => simp [List.filterMap_cons, hc]
      | succ j =>
        simp only [List.filterMap_cons, hc, List.get?]
        exact hl2 j

/-- The outcome one request produces on its own, independently of its
batch siblings: drive the processor over this prompt backend texts for
the shared budget and build the corresponding record (none only when the
budget is zero). -/
def machineRecord? (backend : Backend) (pipeText : String) (cbs : List UntilCallback)
    (md : List (String × String)) (prompt : String) (ps : GenParams) : Option Completion :=
  match runChunks pipeText cbs 1 (streamTexts backend prompt ps (lowestMaxRounds cbs)) with
  | .pending _ => none
  | .finalized g r => some (mkRecord pipeText md (backend (r - 1) prompt ps) ps g false)
  | .exhausted _ g r => some (mkRecord pipeText md (backend (r - 1) prompt ps) ps g true)

/-- Claim C3 (confirmed): a run_batch over K texts with skip_failed unset
and no Map callbacks that returns without raising returns exactly K
records, and the record at position i is exactly the post-processed
independent outcome of input i — order and length match the inputs no
matter which request finished in which round. -/
theorem c3_batch_order (p : Pipeline) (backend : Backend) (many : List String)
    (params : Option (List (Option GenParams))) (incl : Bool) (res : List Completion)
    (hlow : 0 < lowestMaxRounds p.untilCallbacks)
    (hmap : p.mapCallbacks = [])
    (hres : (run_batch p backend many params false incl).result = .ok res) :
    res.length = many.length
      ∧ ∀ ps, fit_params p.params many.length params = .ok ps →
        ∀ i m psi, many.get? i = some m → ps.get? i = some psi →
          ∃ c, machineRecord? backend p.text p.untilCallbacks p.metadata (p.text ++ m) psi
              = some c
            ∧ res.get? i = some (thenFold p.thenCallbacks c) := by
  obtain ⟨ps0, out, hfit0, hloop, hbres, hreseq, hlen, hget⟩ :=
    run_batch_ok_char p backend many params false incl res hlow hres
  have hps0len : ps0.length = many.length := fit_params_ok_length _ _ _ _ hfit0
  have hziplen : (many.zip ps0).length = many.length := by
    rw [List.length_zip, hps0len]
    omega
  have hinit0 : ∀ i m psi, many.get? i = some m → ps0.get? i = some psi →
      (initStates 0 (many.zip ps0)).get? i
        = some ⟨i, m, psi, 1, none, false⟩ := by
    intro i m psi hm hp
    rw [initStates_get?]
    rw [(List.get?_zip_eq_some many ps0 (m, psi) i).mpr ⟨hm, hp⟩]
    simp
  have hcomp : ∀ i s2, out.states.get? i = some s2 → s2.completion.isSome = true := by
    intro i s2 hs2
    obtain ⟨hi, _⟩ := List.get?_eq_some.mp hs2
    rw [hlen, hziplen] at hi
    obtain ⟨m, hm⟩ : ∃ m, many.get? i = some m := by
      cases hq : many.get? i with
      | none => rw [List.get?_eq_none] at hq; omega
      | some m => exact ⟨m, rfl⟩
    obtain ⟨psi, hp⟩ : ∃ psi, ps0.get? i = some psi := by
      cases hq : ps0.get? i with
      | none => rw [List.get?_eq_none] at hq; omega
      | some psi => exact ⟨psi, rfl⟩
    obtain ⟨s2b, hs2b, hfin⟩ := hget i _ (hinit0 i m psi hm hp)
    rw [hs2] at hs2b
    cases hs2b
    simp only [finalOf] at hfin
    split at hfin
    · exact hfin.elim
    · rw [hfin]; rfl
    · rw [hfin.2]; rfl
  obtain ⟨hcl, hcg⟩ := filterMap_completion_all_some out.states hcomp
  have hcs : res = (out.states.filterMap (fun s => s.completion)).map
      (thenFold p.thenCallbacks) := by
    rw [hreseq, post_run_eq_fold, hmap]
    simp
  constructor
  · rw [hcs, List.length_map, hcl, hlen, hziplen]
  · intro ps hfit i m psi hm hp
    rw [hfit0] at hfit
    cases hfit
    obtain ⟨s2, hs2, hfin⟩ := hget i _ (hinit0 i m psi hm hp)
    simp only [finalOf] at hfin
    split at hfin
    · exact hfin.elim
    · rename_i g r heq
      refine ⟨mkRecord p.text p.metadata (backend (r - 1) (p.text ++ m) psi) psi g false, ?_, ?_⟩
      · unfold machineRecord?
        rw [show runChunks p.text p.untilCallbacks 1
            (streamTexts backend (p.text ++ m) psi (lowestMaxRounds p.untilCallbacks))
              = .finalized g r from heq]
      · rw [hcs, List.get?_map, hcg i, hs2, hfin]
        rfl
    · rename_i n g r heq
      obtain ⟨_, hfin2⟩ := hfin
      refine ⟨mkRecord p.text p.metadata (backend (r - 1) (p.text ++ m) psi) psi g true, ?_, ?_⟩
      · unfold machineRecord?
        rw [show runChunks p.text p.untilCallbacks 1
            (streamTexts backend (p.text ++ m) psi (lowestMaxRounds p.untilCallbacks))
              = .exhausted n g r from heq]
      · rw [hcs, List.get?_map, hcg i, hs2, hfin2]
        rfl

/-- Positional contents of the backend text stream. -/
theorem streamTexts_get? (backend : Backend) (pr : String) (ps : GenParams)
    (n j : Nat) (hj : j < n) :
    (streamTexts backend pr ps n).get? j = some ((backend j pr ps).text) := by
  simp [streamTexts, List.get?_eq_getElem?, List.getElem?_map, List.getElem?_range hj]

/-- Helper for C7: every failed record among the loop completions of a
successful run comes from the exhausted path of its own machine, with the
generated text equal to the last backend text of that machine. -/
theorem loop_failed_char (p : Pipeline) (backend : Backend) (promptOf : String → String)
    (texts : List String) (ps0 : List GenParams) (sf incl : Bool) (out : LoopOut)
    (hlow : 0 < lowestMaxRounds p.untilCallbacks)
    (hlenps : ps0.length = texts.length)
    (hloop : runLoop backend promptOf p.text p.untilCallbacks p.metadata sf incl
        (lowestMaxRounds p.untilCallbacks) 0 (initStates 0 (texts.zip ps0)) = .ok out)
    (hlen : out.states.length = (texts.zip ps0).length)
    (hget : ∀ i s, (initStates 0 (texts.zip ps0)).get? i = some s →
        ∃ s2, out.states.get? i = some s2
          ∧ finalOf backend promptOf p.text p.untilCallbacks p.metadata sf incl s s2) :
    ∀ c ∈ out.states.filterMap (fun s => s.completion), c.failed = true →
      (sf = true ∨ incl = true)
        ∧ ∃ m psi, m ∈ texts ∧
          runChunks p.text p.untilCallbacks 1
              (streamTexts backend (promptOf m) psi (lowestMaxRounds p.untilCallbacks))
            = .exhausted (lowestMaxRounds p.untilCallbacks) c.generated
                (lowestMaxRounds p.untilCallbacks)
          ∧ c.generated
            = (backend (lowestMaxRounds p.untilCallbacks - 1) (promptOf m) psi).text := by
  intro c hc hfail
  obtain ⟨s2, hs2mem, hs2c⟩ := List.mem_filterMap.mp hc
  obtain ⟨i, hs2⟩ := List.mem_iff_get?.mp hs2mem
  obtain ⟨hi, _⟩ := List.get?_eq_some.mp hs2
  rw [hlen] at hi
  obtain ⟨m, hm⟩ : ∃ m, texts.get? i = some m := by
    cases hq : texts.get? i with
    | none =>
      rw [List.get?_eq_none] at hq
      rw [List.length_zip] at hi
      omega
    | some m => exact ⟨m, rfl⟩
  obtain ⟨psi, hp⟩ : ∃ psi, ps0.get? i = some psi := by
    cases hq : ps0.get? i with
    | none =>
      rw [List.get?_eq_none] at hq
      rw [List.length_zip] at hi
      omega
    | some psi => exact ⟨psi, rfl⟩
  have hinit : (initStates 0 (texts.zip ps0)).get? i
      = some ⟨0 + i, m, psi, 1, none, false⟩ := by
    rw [initStates_get?, (List.get?_zip_eq_some texts ps0 (m, psi) i).mpr ⟨hm, hp⟩]
    rfl
  obtain ⟨s2b, hs2b, hfin⟩ := hget i _ hinit
  rw [hs2] at hs2b
  cases hs2b
  simp only [finalOf] at hfin
  split at hfin
  · exact hfin.elim
  · rename_i g r heq
    rw [hfin] at hs2c
    simp only [mkRecord] at hs2c
    cases hs2c
    cases hfail
  · rename_i n g r heq
    obtain ⟨hflags, hfin2⟩ := hfin
    rw [hfin2] at hs2c
    simp only [mkRecord] at hs2c
    cases hs2c
    obtain ⟨hn, hr, hg⟩ := runChunks_exhausted_inv p.text p.untilCallbacks _ 1 n g r hlow heq
    have hgid : g = (backend (lowestMaxRounds p.untilCallbacks - 1) (promptOf m) psi).text := by
      rw [streamTexts_get? backend (promptOf m) psi (lowestMaxRounds p.untilCallbacks)
        (lowestMaxRounds p.untilCallbacks - 1) (by omega)] at hg
      exact (Option.some.injEq _ _ ▸ hg).symm
    subst hn
    subst hr
    exact ⟨hflags, m, psi, List.get?_mem hm, heq, hgid⟩

/-- Claim C7 (confirmed): for run_batch and run_many (run is run_many with
count one) with executor-produced records (no Map or Then callbacks
registered, which could substitute arbitrary records), every returned
record with failed=true was produced through the max-rounds-exhausted path
of its own machine — the run carried skip_failed or include_failed (a
record is yielded instead of raising only then), and its generated text is
exactly the last chunk the backend returned for that request before
exhaustion. -/
theorem c7_failed_only_exhausted (p : Pipeline) (backend : Backend) (many : List String)
    (count : Nat) (params params2 : Option (List (Option GenParams)))
    (sf incl sf2 incl2 : Bool) (res res2 : List Completion)
    (hlow : 0 < lowestMaxRounds p.untilCallbacks)
    (hmap : p.mapCallbacks = []) (hthen : p.thenCallbacks = [])
    (hres : (run_batch p backend many params sf incl).result = .ok res)
    (hres2 : (run_many p backend count params2 sf2 incl2).result = .ok res2) :
    (∀ c ∈ res, c.failed = true →
      (sf = true ∨ incl = true)
        ∧ ∃ m psi, m ∈ many ∧
          runChunks p.text p.untilCallbacks 1
              (streamTexts backend (p.text ++ m) psi (lowestMaxRounds p.untilCallbacks))
            = .exhausted (lowestMaxRounds p.untilCallbacks) c.generated
                (lowestMaxRounds p.untilCallbacks)
          ∧ c.generated
            = (backend (lowestMaxRounds p.untilCallbacks - 1) (p.text ++ m) psi).text)
    ∧ (∀ c ∈ res2, c.failed = true →
      (sf2 = true ∨ incl2 = true)
        ∧ ∃ psi, runChunks p.text p.untilCallbacks 1
              (streamTexts backend p.text psi (lowestMaxRounds p.untilCallbacks))
            = .exhausted (lowestMaxRounds p.untilCallbacks) c.generated
                (lowestMaxRounds p.untilCallbacks)
          ∧ c.generated
            = (backend (lowestMaxRounds p.untilCallbacks - 1) p.text psi).text) := by
  constructor
  · obtain ⟨ps0, out, hfit0, hloop, _, hreseq, hlen, hget⟩ :=
      run_batch_ok_char p backend many params sf incl res hlow hres
    have hsub : ∀ c ∈ res, c ∈ out.states.filterMap (fun s => s.completion) := by
      intro c hc
      rw [hreseq, post_run_eq_fold, hmap, hthen] at hc
      simp only [List.foldl_nil] at hc
      have hid : ∀ (l : List Completion), l.map (thenFold []) = l := fun l => List.map_id l
      rw [hid] at hc
      by_cases hsf : sf = true
      · rw [if_pos (by rw [hsf])] at hc
        exact (List.mem_filter.mp hc).1
      · rw [if_neg (by simp [hsf])] at hc
        exact hc
    intro c hc hfail
    have := loop_failed_char p backend (fun t => p.text ++ t) many ps0 sf incl out hlow
      (fit_params_ok_length _ _ _ _ hfit0) hloop hlen hget c (hsub c hc) hfail
    obtain ⟨hflags, m, psi, hmm, hrc, hgen⟩ := this
    exact ⟨hflags, m, psi, hmm, hrc, hgen⟩
  · obtain ⟨ps0, out, hfit0, hloop, hreseq, hlen, hget⟩ :=
      run_many_ok_char p backend count params2 sf2 incl2 res2 hlow hres2
    have hsub : ∀ c ∈ res2, c ∈ out.states.filterMap (fun s => s.completion) := by
      intro c hc
      rw [hreseq, post_run_eq_fold, hmap, hthen] at hc
      simp only [List.foldl_nil] at hc
      have hid : ∀ (l : List Completion), l.map (thenFold []) = l := fun l => List.map_id l
      rw [hid] at hc
      by_cases hsf : sf2 = true
      · rw [if_pos (by rw [hsf])] at hc
        exact (List.mem_filter.mp hc).1
      · rw [if_neg (by simp [hsf])] at hc
        exact hc
    intro c hc hfail
    have hlenps : ps0.length = (List.replicate count p.text).length := by
      rw [List.length_replicate]
      exact fit_params_ok_length _ _ _ _ hfit0
    have := loop_failed_char p backend (fun t => t) (List.replicate count p.text) ps0
      sf2 incl2 out hlow hlenps hloop hlen hget c (hsub c hc) hfail
    obtain ⟨hflags, m, psi, hmm, hrc, hgen⟩ := this
    have hmp : m = p.text := List.eq_of_mem_replicate hmm
    subst hmp
    exact ⟨hflags, psi, hrc, hgen⟩

/-- Texts of the fed states equal the entry texts. -/
theorem feedAll_texts (step : RunState → Except RunError RunState)
    (hframe : ∀ s t1, step s = .ok t1 → t1.text = s.text) :
    ∀ (l l2 : List RunState), feedAll step l = .ok l2 →
    l2.map (fun s => s.text) = l.map (fun s => s.text) := by
  intro l
  induction l with
  | nil =>
    intro l2 h
    simp only [feedAll] at h
    cases h
    rfl
  | cons s rest ih =>
    intro l2 h
    simp only [feedAll] at h
    cases hs : step s with
    | error e => rw [hs] at h; simp at h
    | ok s2 =>
      rw [hs] at h
      cases hr : feedAll step rest with
      | error e => rw [hr] at h; simp at h
      | ok rest2 =>
        rw [hr] at h
        cases h
        simp [List.map_cons, hframe s s2 hs, ih rest2 hr]

/-- Texts of the marked states equal the texts before marking. -/
theorem marked_texts (l : List RunState) :
    (l.map markWatched).map (fun s => s.text) = l.map (fun s => s.text) := by
  induction l with
  | nil => rfl
  | cons a l ih => simp [List.map_cons, ih, (markWatched_spec a).2.2.1]

/-- Every prompt the loop ever submits is the prompt of one of the entry
states. -/
theorem runLoop_prompts (backend : Backend) (promptOf : String → String) (pipeText : String)
    (cbs : List UntilCallback) (md : List (String × String)) (sf incl : Bool) :
    ∀ (fuel k : Nat) (states : List RunState) (out : LoopOut),
    runLoop backend promptOf pipeText cbs md sf incl fuel k states = .ok out →
    ∀ l ∈ out.promptTrace, ∀ q ∈ l, ∃ t ∈ states.map (fun s => s.text), q = promptOf t := by
  intro fuel
  induction fuel with
  | zero =>
    intro k states out hrun l hl q hq
    rw [runLoop_zero_eq] at hrun
    by_cases hall : states.all (fun s => s.completion.isSome) = true
    · rw [if_pos hall] at hrun
      cases hrun
      simp at hl
    · rw [if_neg hall] at hrun
      cases hrun
  | succ fuel ih =>
    intro k states out hrun l hl q hq
    rw [runLoop_succ_eq] at hrun
    by_cases hall : states.all (fun s => s.completion.isSome) = true
    · rw [if_pos hall] at hrun
      cases hrun
      simp at hl
    · rw [if_neg hall] at hrun
      cases hfeed : feedAll (stepState backend promptOf pipeText cbs md sf incl k) states with
      | error e => rw [hfeed] at hrun; cases hrun
      | ok states1 =>
        rw [hfeed] at hrun
        simp only [] at hrun
        cases hrec : runLoop backend promptOf pipeText cbs md sf incl fuel (k + 1)
            (states1.map markWatched) with
        | error e => rw [hrec] at hrun; cases hrun
        | ok rest =>
          rw [hrec] at hrun
          simp only [] at hrun
          cases hrun
          rcases List.mem_cons.mp hl with hl1 | hl2
          · subst hl1
            obtain ⟨s, hsmem, hqs⟩ := List.mem_map.mp hq
            exact ⟨s.text, List.mem_map_of_mem _ (List.mem_of_mem_filter hsmem), hqs.symm⟩
          · obtain ⟨t, ht, hqt⟩ := ih (k + 1) (states1.map markWatched) rest hrec l hl2 q hq
            rw [marked_texts] at ht
            rw [feedAll_texts _ (fun s t1 hs =>
              (stepState_ok_frame backend promptOf pipeText cbs md sf incl k s t1 hs).2.1)
              states states1 hfeed] at ht
            exact ⟨t, ht, hqt⟩

/-- Texts of the initial states are the request texts. -/
theorem initStates_prompt_map (f : String → String) : ∀ (i : Nat) (l : List (String × GenParams)),
    (initStates i l).map (fun s => f s.text) = l.map (fun tp => f tp.1)
  | _, [] => rfl
  | i, tp :: rest => by simp [initStates, initStates_prompt_map f (i + 1) rest]

/-- All initial states are pending. -/
theorem initStates_pending_filter : ∀ (i : Nat) (l : List (String × GenParams)),
    (initStates i l).filter (fun s => s.completion.isNone) = initStates i l
  | _, [] => rfl
  | i, tp :: rest => by
    simp [initStates, List.filter_cons, initStates_pending_filter (i + 1) rest]

/-- Map over the first components of a zip. -/
theorem zip_map_fst_fun (f : String → String) (l1 : List String) (l2 : List GenParams)
    (h : l1.length ≤ l2.length) :
    (l1.zip l2).map (fun tp => f tp.1) = l1.map f := by
  rw [show (fun tp : String × GenParams => f tp.1) = f ∘ Prod.fst from rfl, ← List.map_map,
    List.map_fst_zip l1 l2 h]

/-- The pipeline of the C10 counterexample: seed text "a". -/
def cexPipe : Pipeline := ⟨"a", none, [], [], [], []⟩

/-- Claim C10 counterexample: with seed text "a" and the single batch item
"a", the returned record has text field "a" — which is exactly the
per-item input text many[0], so the per-item text does appear in the text
field (the claim asserts it never does; it fails when the item text
already occurs in the seed). -/
theorem c10_counterexample :
    (run_batch cexPipe backend0 ["a"] none false false).result
        = .ok [⟨"a", "G", [], "stop", some [], false⟩]
      ∧ (⟨"a", "G", [], "stop", some [], false⟩ : Completion).text = "a"
      ∧ ["a"].get? 0 = some "a" := by
  refine ⟨?_, rfl, rfl⟩
  rfl

/-- Claim C10 (corrected): run_batch submits to the backend exactly the
concatenations of the seed text with the per-item texts (the first round
submits them all in order, and every later prompt is also of this shape),
and every returned record text field equals the seed text alone — the
per-item text is not incorporated into the record, though it can occur in
the text field when it already occurs inside the seed text itself. -/
theorem c10_amended (p : Pipeline) (backend : Backend) (many : List String)
    (params : Option (List (Option GenParams))) (sf incl : Bool) (res : List Completion)
    (hlow : 0 < lowestMaxRounds p.untilCallbacks)
    (hmap : p.mapCallbacks = []) (hthen : p.thenCallbacks = [])
    (hres : (run_batch p backend many params sf incl).result = .ok res) :
    (many ≠ [] → (run_batch p backend many params sf incl).promptTrace.head?
        = some (many.map (fun m => p.text ++ m)))
      ∧ (∀ l ∈ (run_batch p backend many params sf incl).promptTrace, ∀ q ∈ l,
          ∃ m ∈ many, q = p.text ++ m)
      ∧ ∀ c ∈ res, c.text = p.text := by
  obtain ⟨ps0, out, hfit0, hloop, hbres, hreseq, hlen, hget⟩ :=
    run_batch_ok_char p backend many params sf incl res hlow hres
  have hps0len : ps0.length = many.length := fit_params_ok_length _ _ _ _ hfit0
  refine ⟨?_, ?_, ?_⟩
  · intro hmany
    have hzlen : 0 < (many.zip ps0).length := by
      rw [List.length_zip, hps0len]
      have := List.length_pos.mpr hmany
      omega
    obtain ⟨L2, hL2⟩ : ∃ L2, lowestMaxRounds p.untilCallbacks = L2 + 1 :=
      ⟨lowestMaxRounds p.untilCallbacks - 1, by omega⟩
    rw [hL2] at hloop
    rw [runLoop_succ_eq] at hloop
    have hall : ¬ ((initStates 0 (many.zip ps0)).all (fun s => s.completion.isSome) = true) := by
      intro habs
      cases hq : (many.zip ps0) with
      | nil => rw [hq] at hzlen; simp at hzlen
      | cons tp rest =>
        rw [hq] at habs
        simp [initStates] at habs
    rw [if_neg hall] at hloop
    cases hfeed : feedAll (stepState backend (fun t => p.text ++ t) p.text p.untilCallbacks
        p.metadata sf incl 0) (initStates 0 (many.zip ps0)) with
    | error e => rw [hfeed] at hloop; cases hloop
    | ok states1 =>
      rw [hfeed] at hloop
      simp only [] at hloop
      cases hrec : runLoop backend (fun t => p.text ++ t) p.text p.untilCallbacks p.metadata
          sf incl L2 1 (states1.map markWatched) with
      | error e => rw [hrec] at hloop; cases hloop
      | ok rest =>
        rw [hrec] at hloop
        simp only [] at hloop
        cases hloop
        rw [hbres]
        show some _ = some _
        rw [initStates_pending_filter, initStates_prompt_map (fun t => p.text ++ t) 0,
          zip_map_fst_fun _ many ps0 (by omega)]
  · intro l hl q hq
    rw [hbres] at hl
    obtain ⟨t, ht, hqt⟩ := runLoop_prompts backend (fun t => p.text ++ t) p.text
      p.untilCallbacks p.metadata sf incl (lowestMaxRounds p.untilCallbacks) 0
      (initStates 0 (many.zip ps0)) out hloop l hl q hq
    rw [initStates_prompt_map (fun t => t) 0] at ht
    obtain ⟨tp, htp, htt⟩ := List.mem_map.mp ht
    have hm1 : tp.1 ∈ many := by
      have h1 : tp.1 ∈ (many.zip ps0).map Prod.fst := List.mem_map_of_mem Prod.fst htp
      rw [List.map_fst_zip many ps0 (by omega)] at h1
      exact h1
    exact ⟨tp.1, hm1, by rw [hqt, ← htt]⟩
  · have hsub : ∀ c ∈ res, c ∈ out.states.filterMap (fun s => s.completion) := by
      intro c hc
      rw [hreseq, post_run_eq_fold, hmap, hthen] at hc
      simp only [List.foldl_nil] at hc
      have hid : ∀ (l : List Completion), l.map (thenFold []) = l := fun l => List.map_id l
      rw [hid] at hc
      by_cases hsf : sf = true
      · rw [if_pos (by rw [hsf])] at hc
        exact (List.mem_filter.mp hc).1
      · rw [if_neg (by simp [hsf])] at hc
        exact hc
    intro c hc
    obtain ⟨s2, hs2mem, hs2c⟩ := List.mem_filterMap.mp (hsub c hc)
    obtain ⟨i, hs2⟩ := List.mem_iff_get?.mp hs2mem
    obtain ⟨hi, _⟩ := List.get?_eq_some.mp hs2
    rw [hlen] at hi
    obtain ⟨m, hm⟩ : ∃ m, many.get? i = some m := by
      cases hq : many.get? i with
      | none =>
        rw [List.get?_eq_none] at hq
        rw [List.length_zip] at hi
        omega
      | some m => exact ⟨m, rfl⟩
    obtain ⟨psi, hp⟩ : ∃ psi, ps0.get? i = some psi := by
      cases hq : ps0.get? i with
      | none =>
        rw [List.get?_eq_none] at hq
        rw [List.length_zip] at hi
        omega
      | some psi => exact ⟨psi, rfl⟩
    have hinit : (initStates 0 (many.zip ps0)).get? i
        = some ⟨0 + i, m, psi, 1, none, false⟩ := by
      rw [initStates_get?, (List.get?_zip_eq_some many ps0 (m, psi) i).mpr ⟨hm, hp⟩]
      rfl
    obtain ⟨s2b, hs2b, hfin⟩ := hget i _ hinit
    rw [hs2] at hs2b
    cases hs2b
    simp only [finalOf] at hfin
    split at hfin
    · exact hfin.elim
    · rw [hfin] at hs2c
      simp only [mkRecord] at hs2c
      cases hs2c
      rfl
    · rw [hfin.2] at hs2c
      simp only [mkRecord] at hs2c
      cases hs2c
      rfl

/-- Feeding preserves the identities of the not-yet-watched states. -/
theorem feedAll_unwatched_idx (step : RunState → Except RunError RunState)
    (hframe : ∀ s t1, step s = .ok t1 → t1.idx = s.idx ∧ t1.watched = s.watched) :
    ∀ (l l2 : List RunState), feedAll step l = .ok l2 →
    (l2.filter (fun s => !s.watched)).map (fun s => s.idx)
      = (l.filter (fun s => !s.watched)).map (fun s => s.idx) := by
  intro l
  induction l with
  | nil =>
    intro l2 h
    simp only [feedAll] at h
    cases h
    rfl
  | cons s rest ih =>
    intro l2 h
    simp only [feedAll] at h
    cases hs : step s with
    | error e => rw [hs] at h; simp at h
    | ok s2 =>
      rw [hs] at h
      cases hr : feedAll step rest with
      | error e => rw [hr] at h; simp at h
      | ok rest2 =>
        rw [hr] at h
        cases h
        obtain ⟨hidx, hw⟩ := hframe s s2 hs
        cases hwv : s.watched with
        | true => simp [List.filter_cons, hw, hwv, ih rest2 hr]
        | false => simp [List.filter_cons, hw, hwv, hidx, ih rest2 hr]

/-- One watch round moves each unwatched identity either into the
delivered batch (when its state finished this round) or into the still
unwatched remainder — as a permutation, nothing is lost or duplicated. -/
theorem watch_round_perm (l : List RunState) :
    List.Perm ((l.filter (fun s => !s.watched)).map (fun s => s.idx))
      (((l.filterMap (fun s => match s.completion with
          | some c => if s.watched then none else some (s.idx, c)
          | none => none)).map Prod.fst)
        ++ (((l.map markWatched).filter (fun s => !s.watched)).map (fun s => s.idx))) := by
  induction l with
  | nil => simp
  | cons a l ih =>
    cases hw : a.watched with
    | true =>
      have hmk : markWatched a = a := by
        unfold markWatched
        rw [hw]
        simp
      cases hc : a.completion with
      | none =>
        simp only [List.filter_cons, List.filterMap_cons, List.map_cons, hw, hc, hmk,
          Bool.not_true, Bool.false_eq_true, if_false]
        exact ih
      | some c =>
        simp only [List.filter_cons, List.filterMap_cons, List.map_cons, hw, hc, hmk,
          Bool.not_true, Bool.false_eq_true, if_false, if_true]
        exact ih
    | false =>
      cases hc : a.completion with
      | none =>
        have hmk : markWatched a = a := markWatched_pending a hc
        simp only [List.filter_cons, List.filterMap_cons, List.map_cons, hw, hc, hmk,
          Bool.not_false, if_true]
        exact (ih.cons a.idx).trans List.perm_middle.symm
      | some c =>
        have hmk : markWatched a = { a with watched := true } := by
          unfold markWatched
          rw [hw, hc]
          simp
        simp only [List.filter_cons, List.filterMap_cons, List.map_cons, hw, hc, hmk,
          Bool.not_false, if_true, Bool.false_eq_true, if_false, Bool.not_true]
        exact ih.cons a.idx

/-- Every identity unwatched at loop entry is delivered to the watch
callbacks exactly once over a successful loop, and nothing else is
delivered: the flattened deliveries are a permutation of the unwatched
entry identities. -/
theorem runLoop_watch (backend : Backend) (promptOf : String → String) (pipeText : String)
    (cbs : List UntilCallback) (md : List (String × String)) (sf incl : Bool) :
    ∀ (fuel k : Nat) (states : List RunState) (out : LoopOut),
    runLoop backend promptOf pipeText cbs md sf incl fuel k states = .ok out →
    (∀ s ∈ states, s.completion.isSome = true → s.watched = true) →
    List.Perm ((out.watchTrace.map (fun d => d.map Prod.fst)).flatten)
      ((states.filter (fun s => !s.watched)).map (fun s => s.idx)) := by
  intro fuel
  induction fuel with
  | zero =>
    intro k states out hrun hbnd
    rw [runLoop_zero_eq] at hrun
    by_cases hall : states.all (fun s => s.completion.isSome) = true
    · rw [if_pos hall] at hrun
      cases hrun
      have hfe : states.filter (fun s => !s.watched) = [] := by
        rw [List.filter_eq_nil]
        intro s hs
        have := hbnd s hs (List.all_eq_true.mp hall s hs)
        simp [this]
      simp [hfe]
    · rw [if_neg hall] at hrun
      cases hrun
  | succ fuel ih =>
    intro k states out hrun hbnd
    rw [runLoop_succ_eq] at hrun
    by_cases hall : states.all (fun s => s.completion.isSome) = true
    · rw [if_pos hall] at hrun
      cases hrun
      have hfe : states.filter (fun s => !s.watched) = [] := by
        rw [List.filter_eq_nil]
        intro s hs
        have := hbnd s hs (List.all_eq_true.mp hall s hs)
        simp [this]
      simp [hfe]
    · rw [if_neg hall] at hrun
      cases hfeed : feedAll (stepState backend promptOf pipeText cbs md sf incl k) states with
      | error e => rw [hfeed] at hrun; cases hrun
      | ok states1 =>
        rw [hfeed] at hrun
        simp only [] at hrun
        cases hrec : runLoop backend promptOf pipeText cbs md sf incl fuel (k + 1)
            (states1.map markWatched) with
        | error e => rw [hrec] at hrun; cases hrun
        | ok rest =>
          rw [hrec] at hrun
          simp only [] at hrun
          cases hrun
          have hbnd2 : ∀ s ∈ states1.map markWatched, s.completion.isSome = true →
              s.watched = true := by
            intro s hs hcomp
            obtain ⟨t, _, hts⟩ := List.mem_map.mp hs
            subst hts
            rw [(markWatched_spec t).1] at hcomp
            rw [(markWatched_spec t).2.2.2.2.2, hcomp]
            rfl
          have hfidx := feedAll_unwatched_idx
            (stepState backend promptOf pipeText cbs md sf incl k)
            (fun s t1 hs =>
              ⟨(stepState_ok_frame backend promptOf pipeText cbs md sf incl k s t1 hs).1,
               (stepState_ok_frame backend promptOf pipeText cbs md sf incl k s t1 hs).2.2.2⟩)
            states states1 hfeed
          have hperm1 := watch_round_perm states1
          have hih := ih (k + 1) (states1.map markWatched) rest hrec hbnd2
          simp only [List.map_cons, List.flatten_cons]
          exact hfidx ▸ ((List.Perm.append_left _ hih).trans hperm1.symm)

/-- All initial states are unwatched. -/
theorem initStates_unwatched_filter : ∀ (i : Nat) (l : List (String × GenParams)),
    (initStates i l).filter (fun s => !s.watched) = initStates i l
  | _, [] => rfl
  | i, tp :: rest => by
    simp [initStates, List.filter_cons, initStates_unwatched_filter (i + 1) rest]

/-- The identities of the initial states are consecutive from the start
index. -/
theorem initStates_idx : ∀ (i : Nat) (l : List (String × GenParams)),
    (initStates i l).map (fun s => s.idx) = List.range' i l.length
  | _, [] => rfl
  | i, tp :: rest => by
    simp only [initStates, List.map_cons, List.length_cons, initStates_idx (i + 1) rest]
    rfl

/-- No initial state is finished. -/
theorem initStates_mem_pending : ∀ (i : Nat) (l : List (String × GenParams)) (s : RunState),
    s ∈ initStates i l → s.completion = none := by
  intro i l
  induction l generalizing i with
  | nil => intro s hs; simp [initStates] at hs
  | cons tp rest ih =>
    intro s hs
    rcases List.mem_cons.mp hs with h1 | h2
    · rw [h1]
    · exact ih (i + 1) s h2

/-- Unfolded loop call of a successful run_batch (no characterization). -/
theorem run_batch_ok_loop (p : Pipeline) (backend : Backend) (many : List String)
    (params : Option (List (Option GenParams))) (sf incl : Bool) (res : List Completion)
    (hres : (run_batch p backend many params sf incl).result = .ok res) :
    ∃ ps out, fit_params p.params many.length params = .ok ps
      ∧ runLoop backend (fun t => p.text ++ t) p.text p.untilCallbacks p.metadata sf incl
          (lowestMaxRounds p.untilCallbacks) 0 (initStates 0 (many.zip ps)) = .ok out
      ∧ (run_batch p backend many params sf incl).watchTrace = out.watchTrace := by
  unfold run_batch at hres
  by_cases hflag : (sf && incl) = true
  · rw [if_pos hflag] at hres
    cases hres
  · rw [if_neg hflag] at hres
    cases hfit : fit_params p.params many.length params with
    | error e => rw [hfit] at hres; cases hres
    | ok ps =>
      rw [hfit] at hres
      simp only [] at hres
      cases hloop : runLoop backend (fun t => p.text ++ t) p.text p.untilCallbacks p.metadata
          sf incl (lowestMaxRounds p.untilCallbacks) 0 (initStates 0 (many.zip ps)) with
      | error e => rw [hloop] at hres; cases hres
      | ok out =>
        refine ⟨ps, out, rfl, hloop, ?_⟩
        unfold run_batch
        rw [if_neg hflag, hfit]
        simp only []
        rw [hloop]

/-- Unfolded loop call of a successful run_many (no characterization). -/
theorem run_many_ok_loop (p : Pipeline) (backend : Backend) (count : Nat)
    (params : Option (List (Option GenParams))) (sf incl : Bool) (res : List Completion)
    (hres : (run_many p backend count params sf incl).result = .ok res) :
    ∃ ps out, fit_params p.params count params = .ok ps
      ∧ runLoop backend (fun t => t) p.text p.untilCallbacks p.metadata sf incl
          (lowestMaxRounds p.untilCallbacks) 0
          (initStates 0 ((List.replicate count p.text).zip ps)) = .ok out
      ∧ (run_many p backend count params sf incl).watchTrace = out.watchTrace := by
  unfold run_many at hres
  by_cases hflag : (sf && incl) = true
  · rw [if_pos hflag] at hres
    cases hres
  · rw [if_neg hflag] at hres
    cases hfit : fit_params p.params count params with
    | error e => rw [hfit] at hres; cases hres
    | ok ps =>
      rw [hfit] at hres
      simp only [] at hres
      cases hloop : runLoop backend (fun t => t) p.text p.untilCallbacks p.metadata
          sf incl (lowestMaxRounds p.untilCallbacks) 0
          (initStates 0 ((List.replicate count p.text).zip ps)) with
      | error e => rw [hloop] at hres; cases hres
      | ok out =>
        refine ⟨ps, out, rfl, hloop, ?_⟩
        unfold run_many
        rw [if_neg hflag, hfit]
        simp only []
        rw [hloop]

/-- Claim C4 (confirmed): over a whole successful run_batch or run_many,
the flattened sequence of identities handed to the watch callbacks is a
permutation of one identity per request — every record that finalizes or
exhausts into a failed record is delivered to the watch stage exactly
once, never skipped and never delivered again in later rounds, however
many extra rounds its batch siblings take. -/
theorem c4_watch_once (p : Pipeline) (backend : Backend) (many : List String) (count : Nat)
    (params params2 : Option (List (Option GenParams))) (sf incl sf2 incl2 : Bool)
    (res res2 : List Completion)
    (hres : (run_batch p backend many params sf incl).result = .ok res)
    (hres2 : (run_many p backend count params2 sf2 incl2).result = .ok res2) :
    List.Perm (((run_batch p backend many params sf incl).watchTrace.map
        (fun d => d.map Prod.fst)).flatten)
      (List.range many.length)
    ∧ List.Perm (((run_many p backend count params2 sf2 incl2).watchTrace.map
        (fun d => d.map Prod.fst)).flatten)
      (List.range count) := by
  constructor
  · obtain ⟨ps, out, hfit, hloop, htrace⟩ := run_batch_ok_loop p backend many params sf incl res hres
    rw [htrace]
    have hperm := runLoop_watch backend (fun t => p.text ++ t) p.text p.untilCallbacks
      p.metadata sf incl (lowestMaxRounds p.untilCallbacks) 0 (initStates 0 (many.zip ps))
      out hloop (fun s hs hcomp => by
        rw [initStates_mem_pending 0 (many.zip ps) s hs] at hcomp
        cases hcomp)
    rw [initStates_unwatched_filter, initStates_idx] at hperm
    rw [List.length_zip, fit_params_ok_length _ _ _ _ hfit, Nat.min_self,
      ← List.range_eq_range'] at hperm
    exact hperm
  · obtain ⟨ps, out, hfit, hloop, htrace⟩ :=
      run_many_ok_loop p backend count params2 sf2 incl2 res2 hres2
    rw [htrace]
    have hperm := runLoop_watch backend (fun t => t) p.text p.untilCallbacks
      p.metadata sf2 incl2 (lowestMaxRounds p.untilCallbacks) 0
      (initStates 0 ((List.replicate count p.text).zip ps)) out hloop (fun s hs hcomp => by
        rw [initStates_mem_pending 0 ((List.replicate count p.text).zip ps) s hs] at hcomp
        cases hcomp)
    rw [initStates_unwatched_filter, initStates_idx] at hperm
    rw [List.length_zip, fit_params_ok_length _ _ _ _ hfit, List.length_replicate,
      Nat.min_self, ← List.range_eq_range'] at hperm
    exact hperm

/-! ## Concrete witnesses -/

/-- Validator accepting exactly the chunk "B", with max_rounds 2. -/
def acceptOnlyB : UntilCallback := ⟨fun g => !(g == "B"), false, 2⟩

/-- Pipeline with one accept-only-B validator. -/
def pipeRetry : Pipeline := ⟨"T", none, [], [acceptOnlyB], [], []⟩

/-- Backend answering "A" in the first round and "B" afterwards. -/
def backendAB : Backend := fun k _ _ => if k == 0 then ⟨"A", "stop"⟩ else ⟨"B", "stop"⟩

/-- Backend answering "A" in every round. -/
def backendA : Backend := fun _ _ _ => ⟨"A", "stop"⟩

/-- The record pipeRetry produces with backendAB. -/
def recB : Completion := ⟨"T", "B", [], "stop", some [], false⟩

/-- The failed record pipeRetry produces with backendA under
include_failed. -/
def recAfail : Completion := ⟨"T", "A", [], "stop", some [], true⟩

/-- The record pipe0 produces with backend0. -/
def recG : Completion := ⟨"T", "G", [], "stop", some [], false⟩

/-- Witness for C3 at a concrete input: a two-item batch whose requests
each retry once and finalize in round two. -/
theorem c3_witness :
    (0 < lowestMaxRounds pipeRetry.untilCallbacks
      ∧ pipeRetry.mapCallbacks = []
      ∧ (run_batch pipeRetry backendAB ["x", "y"] none false false).result
          = .ok [recB, recB])
    ∧ ([recB, recB].length = (["x", "y"] : List String).length
      ∧ ∀ ps, fit_params pipeRetry.params (["x", "y"] : List String).length none = .ok ps →
        ∀ i m psi, (["x", "y"] : List String).get? i = some m → ps.get? i = some psi →
          ∃ c, machineRecord? backendAB pipeRetry.text pipeRetry.untilCallbacks
              pipeRetry.metadata (pipeRetry.text ++ m) psi = some c
            ∧ [recB, recB].get? i = some (thenFold pipeRetry.thenCallbacks c)) :=
  ⟨⟨by decide, rfl, by rfl⟩,
   c3_batch_order pipeRetry backendAB ["x", "y"] none false [recB, recB]
     (by decide) rfl (by rfl)⟩

/-- Witness for C4 at a concrete input: a batch and a count-one run that
both exhaust under include_failed, each identity delivered once. -/
theorem c4_witness :
    ((run_batch pipeRetry backendA ["x"] none false true).result = .ok [recAfail]
      ∧ (run_many pipeRetry backendA 1 none false true).result = .ok [recAfail])
    ∧ (List.Perm (((run_batch pipeRetry backendA ["x"] none false true).watchTrace.map
          (fun d => d.map Prod.fst)).flatten)
        (List.range (["x"] : List String).length)
      ∧ List.Perm (((run_many pipeRetry backendA 1 none false true).watchTrace.map
          (fun d => d.map Prod.fst)).flatten)
        (List.range 1)) :=
  ⟨⟨by rfl, by rfl⟩,
   c4_watch_once pipeRetry backendA ["x"] 1 none none false true false true
     [recAfail] [recAfail] (by rfl) (by rfl)⟩

/-- Witness for C5 at a concrete input: the fold shape of post_run and
the three thenStep outcomes, with each premise discharged. -/
theorem c5_witness :
    ((fun _ => some c5orig : ThenCb) c5empty = some c5orig ∧ c5orig.len ≠ 0)
    ∧ post_run [] [] [c5empty]
        = (([] : List MapCb).foldl (fun acc m => m acc) [c5empty]).map (thenFold [])
    ∧ thenStep (fun _ => some c5orig) c5empty = c5orig :=
  ⟨⟨rfl, by decide⟩,
   (c5_amended [] [] [c5empty] (fun _ => some c5orig) c5empty c5orig).1,
   (c5_amended [] [] [c5empty] (fun _ => some c5orig) c5empty c5orig).2.1 rfl (by decide)⟩

/-- Heap of the C6 witness scenario: a fresh pipeline with one registered
watch callback (identity 0). -/
def c6heap : CallbackHeap :=
  watchReg (pipelineInit ⟨[]⟩ none).2 (pipelineInit ⟨[]⟩ none).1 0 false

/-- Pipeline slots of the C6 witness scenario. -/
def c6pipe : PipelineRefs := (pipelineInit ⟨[]⟩ none).1

/-- Witness for C6 at a concrete input: the clone of a pipeline with a
nonempty watch list keeps Until registrations independent but shares the
watch list. -/
theorem c6_witness :
    (c6pipe.validIn c6heap ∧ c6pipe.watchSeparate
      ∧ c6heap.get c6pipe.watchId ≠ [] ∧ (c6heap.get c6pipe.watchId).contains 7 = false)
    ∧ sourceLists (untilReg (pipeClone c6heap c6pipe false).2
        (pipeClone c6heap c6pipe false).1 7) c6pipe = sourceLists c6heap c6pipe
    ∧ (watchReg (pipeClone c6heap c6pipe false).2 (pipeClone c6heap c6pipe false).1 7
        false).get c6pipe.watchId = c6heap.get c6pipe.watchId ++ [7] :=
  ⟨⟨by unfold PipelineRefs.validIn; decide, by unfold PipelineRefs.watchSeparate; decide,
    by decide, by decide⟩,
   (c6_amended c6heap c6pipe 7
     (by unfold PipelineRefs.validIn; decide)
     (by unfold PipelineRefs.watchSeparate; decide)).1,
   ((c6_amended c6heap c6pipe 7
     (by unfold PipelineRefs.validIn; decide)
     (by unfold PipelineRefs.watchSeparate; decide)).2.2.2.2 (by decide) (by decide)).1⟩

/-- Witness for C7 at a concrete input: a batch and a count-one run whose
single request exhausts after two rounds of "A" under include_failed. -/
theorem c7_witness :
    (0 < lowestMaxRounds pipeRetry.untilCallbacks
      ∧ pipeRetry.mapCallbacks = [] ∧ pipeRetry.thenCallbacks = []
      ∧ (run_batch pipeRetry backendA ["x"] none false true).result = .ok [recAfail]
      ∧ (run_many pipeRetry backendA 1 none false true).result = .ok [recAfail])
    ∧ ((∀ c ∈ [recAfail], c.failed = true →
        (false = true ∨ true = true)
          ∧ ∃ m psi, m ∈ (["x"] : List String) ∧
            runChunks pipeRetry.text pipeRetry.untilCallbacks 1
                (streamTexts backendA (pipeRetry.text ++ m) psi
                  (lowestMaxRounds pipeRetry.untilCallbacks))
              = .exhausted (lowestMaxRounds pipeRetry.untilCallbacks) c.generated
                  (lowestMaxRounds pipeRetry.untilCallbacks)
            ∧ c.generated
              = (backendA (lowestMaxRounds pipeRetry.untilCallbacks - 1)
                  (pipeRetry.text ++ m) psi).text)
      ∧ (∀ c ∈ [recAfail], c.failed = true →
        (false = true ∨ true = true)
          ∧ ∃ psi, runChunks pipeRetry.text pipeRetry.untilCallbacks 1
                (streamTexts backendA pipeRetry.text psi
                  (lowestMaxRounds pipeRetry.untilCallbacks))
              = .exhausted (lowestMaxRounds pipeRetry.untilCallbacks) c.generated
                  (lowestMaxRounds pipeRetry.untilCallbacks)
            ∧ c.generated
              = (backendA (lowestMaxRounds pipeRetry.untilCallbacks - 1)
                  pipeRetry.text psi).text)) :=
  ⟨⟨by decide, rfl, rfl, by rfl, by rfl⟩,
   c7_failed_only_exhausted pipeRetry backendA ["x"] 1 none none false true false true
     [recAfail] [recAfail] (by decide) rfl rfl (by rfl) (by rfl)⟩

/-- Witness for C10 at a concrete input: a two-item batch over seed "T",
prompts "Ta" and "Tb", record texts both "T". -/
theorem c10_witness :
    (0 < lowestMaxRounds pipe0.untilCallbacks
      ∧ pipe0.mapCallbacks = [] ∧ pipe0.thenCallbacks = []
      ∧ (run_batch pipe0 backend0 ["a", "b"] none false false).result = .ok [recG, recG])
    ∧ (((["a", "b"] : List String) ≠ [] →
        (run_batch pipe0 backend0 ["a", "b"] none false false).promptTrace.head?
          = some ((["a", "b"] : List String).map (fun m => pipe0.text ++ m)))
      ∧ (∀ l ∈ (run_batch pipe0 backend0 ["a", "b"] none false false).promptTrace, ∀ q ∈ l,
          ∃ m ∈ (["a", "b"] : List String), q = pipe0.text ++ m)
      ∧ ∀ c ∈ [recG, recG], c.text = pipe0.text) :=
  ⟨⟨by decide, rfl, rfl, by rfl⟩,
   c10_amended pipe0 backend0 ["a", "b"] none false false [recG, recG]
     (by decide) rfl rfl (by rfl)⟩

end Rigging
